import Mathlib

/-!
Verification development for the pnger LSB steganography core.

This file gives a shallow embedding, in Lean 4, of the steganographic core of
the pnger crate (src/strategy/lsb/{mod,header,data,utils}.rs), and proves or
refutes the testable properties stated for it.

Modelling conventions:
* A Rust `u8` byte is a `Nat`; the operations below keep values below 256
  whenever their inputs are below 256.  A byte buffer (`&mut [u8]`) is a
  `List Nat`, mutated by explicit state passing.
* `u32` arithmetic (`payload.len() as u32`, `u32::from_be_bytes`) is `Nat`
  arithmetic with explicit `% 2^32` / division where the Rust code truncates.
* Fallible Rust code returning `Result` becomes `Except`; Rust `panic!`
  (reachable in `BodyEmbedder::write_u8`/`read_u8` and in out-of-bounds
  slicing) becomes the distinguished outcome `Outcome.panicked`.
* The CSPRNG seed of `SeedSource::Auto` and the Argon2 derivation of
  `SeedSource::Password` are abstracted as parameters `autoSeed` and
  `deriveSeed`: the development quantifies over them, using only that the
  derivation is a function of the password (which is all the code relies on).
* The pseudorandom index permutation of `RuntimePattern::Random` is produced
  in data.rs by the external rand crate (`SliceRandom::shuffle` driven by
  `ChaCha20Rng::from_seed`), whose sources are not part of this repository.
  It is abstracted as a parameter `shuffleIdx : List Nat → Nat → List Nat`
  (seed and length to index list); theorems that need it assume only the
  documented contract of `shuffle`: the result is a permutation of
  `0, …, n-1`.
-/

set_option maxRecDepth 100000

namespace Pnger

/-! ## utils.rs: the bit codec -/

/-- Translation of `utils::embed_bit`: `(carrier & !(1 << pos)) | ((bit & 1) << pos)`.
On `u8`, `!(1 << pos)` is `255 ^^^ (1 <<< pos)` for `pos < 8` (larger shifts
panic in Rust; all call sites here use `pos < 8`). -/
def embed_bit (pos carrier bit : Nat) : Nat :=
  (carrier &&& (255 ^^^ (1 <<< pos))) ||| ((bit &&& 1) <<< pos)

/-- Translation of `utils::extract_bit`: `(carrier & (1 << pos)) >> pos`. -/
def extract_bit (pos carrier : Nat) : Nat :=
  (carrier &&& (1 <<< pos)) >>> pos

/-! ## Big-endian u32 serialization (`u32::to_be_bytes` / `u32::from_be_bytes`) -/

/-- The four big-endian bytes of a `u32` value. -/
def be32 (x : Nat) : List Nat :=
  [x / 2 ^ 24 % 256, x / 2 ^ 16 % 256, x / 2 ^ 8 % 256, x % 256]

/-- Reassemble a `u32` from four big-endian bytes (`u32::from_be_bytes`). -/
def readBE32 (l : List Nat) : Nat :=
  l.getD 0 0 * 2 ^ 24 + l.getD 1 0 * 2 ^ 16 + l.getD 2 0 * 2 ^ 8 + l.getD 3 0

/-! ## CRC-32/IEEE (the `crc32fast::Hasher` used by header.rs) -/

/-- The reflected CRC-32/IEEE polynomial. -/
def CRC_POLY : Nat := 0xEDB88320

/-- One bit step of the reflected CRC-32 computation. -/
def crcStep (c : Nat) : Nat :=
  if c &&& 1 = 1 then (c >>> 1) ^^^ CRC_POLY else c >>> 1

/-- Iterate `crcStep` a given number of times. -/
def crcSteps : Nat → Nat → Nat
  | 0, c => c
  | n + 1, c => crcSteps n (crcStep c)

/-- Absorb one message byte into the CRC state. -/
def crcByte (c b : Nat) : Nat := crcSteps 8 (c ^^^ b)

/-- Fold a message into the CRC state. -/
def crcFold (c : Nat) : List Nat → Nat
  | [] => c
  | b :: bs => crcFold (crcByte c b) bs

/-- CRC-32/IEEE of a byte list: initial value `0xFFFFFFFF`, final xor
`0xFFFFFFFF`, reflected (this is what `crc32fast::Hasher::finalize` returns). -/
def crc32 (data : List Nat) : Nat := crcFold 0xFFFFFFFF data ^^^ 0xFFFFFFFF

/-! ## header.rs: constants, flags, fixed and complete headers -/

/-- `MAGIC = b"PNGR"`. -/
def MAGIC : List Nat := [0x50, 0x4E, 0x47, 0x52]

/-- `VERSION = 1`. -/
def VERSION : Nat := 1

/-- `FIXED_HEADER_SIZE = 4 + 1 + 1 + 4 + 4`. -/
def FIXED_HEADER_SIZE : Nat := 14

/-- `SEED_SIZE = 32` (length of a `[u8; 32]` seed). -/
def SEED_SIZE : Nat := 32

/-- `HeaderFlags::RANDOM_PATTERN = 0b0000_0001`. -/
def FLAG_RANDOM_PATTERN : Nat := 1

/-- `HeaderFlags::SEED_EMBEDDED = 0b0000_0010`. -/
def FLAG_SEED_EMBEDDED : Nat := 2

/-- `bitflags` `contains` test for a single-bit flag. -/
def hasFlag (flags bit : Nat) : Bool := flags &&& bit ≠ 0

/-- The fixed 14-byte header of header.rs (magic excluded from the record, as
in the Rust struct it is a `#[br(magic)]` attribute, not a field). -/
structure FixedHeader where
  version : Nat
  flags : Nat
  payload_size : Nat
  crc32 : Nat
deriving DecidableEq

/-- `HeaderError` of header.rs (the `Io` payload is dropped: we never need to
distinguish I/O causes). -/
inductive HeaderError where
  | insufficientSpace (needed available : Nat)
  | insufficientData
  | invalidMagic
  | crcMismatch (expected found : Nat)
  | unsupportedVersion (v : Nat)
  | ioError
deriving DecidableEq

/-- The variants of `PngerError` reachable from the LSB core. -/
inductive PngerError where
  | payloadTooLarge
  | insufficientCapacity
  | invalidFormat (msg : String)
  | payloadError (msg : String)
  | cryptoError (msg : String)
  | fileIo
deriving DecidableEq

/-- `impl From<HeaderError> for PngerError` of header.rs (numeric formatting
of the context strings is simplified to decimal `toString`). -/
def HeaderError.toPngerError : HeaderError → PngerError
  | .insufficientSpace n a =>
      .payloadError ("Header needs " ++ toString n ++ " bytes, have " ++ toString a)
  | .insufficientData => .invalidFormat "Insufficient header data"
  | .invalidMagic => .invalidFormat "Invalid header magic"
  | .crcMismatch e f =>
      .invalidFormat ("Header CRC mismatch: expected " ++ toString e ++ ", found " ++ toString f)
  | .unsupportedVersion v => .invalidFormat ("Unsupported header version: " ++ toString v)
  | .ioError => .fileIo

/-- `FixedHeader::prepare_crc_data`: the six bytes `version ‖ flags ‖
payload_size_be`. -/
def FixedHeader.prepare_crc_data (h : FixedHeader) : List Nat :=
  h.version :: h.flags :: be32 h.payload_size

/-- `FixedHeader::calculate_crc`. -/
def FixedHeader.calculate_crc (h : FixedHeader) : Nat :=
  Pnger.crc32 h.prepare_crc_data

/-- `FixedHeader::validate`: the only check is the CRC comparison. -/
def FixedHeader.validate (h : FixedHeader) : Except HeaderError Unit :=
  if h.crc32 ≠ h.calculate_crc then
    .error (.crcMismatch h.calculate_crc h.crc32)
  else
    .ok ()

/-- `FixedHeader::calculate_total_header_size`. -/
def FixedHeader.calculate_total_header_size (h : FixedHeader) : Nat :=
  FIXED_HEADER_SIZE + if hasFlag h.flags FLAG_SEED_EMBEDDED then SEED_SIZE else 0

/-- The common binrw read of the fixed part (`FixedHeader::read_be`): check
magic, assert version, then read flags, payload size and CRC big-endian.
Used by both `FixedHeader::read_from_bytes` and
`CompleteHeader::read_from_bytes`, which duplicate this call in the source.
The `AssertFail` arm of the Rust error mapping reports
`UnsupportedVersion(VERSION)` (the constant, not the value found). -/
def readFixedRaw (data : List Nat) : Except HeaderError FixedHeader :=
  if data.take 4 ≠ MAGIC then .error .invalidMagic
  else if data.getD 4 0 ≠ VERSION then .error (.unsupportedVersion VERSION)
  else
    .ok { version := data.getD 4 0
          flags := data.getD 5 0
          payload_size := readBE32 (data.drop 6)
          crc32 := readBE32 (data.drop 10) }

/-- `FixedHeader::read_from_bytes`: length precheck, binrw read, validate. -/
def FixedHeader.read_from_bytes (data : List Nat) : Except HeaderError FixedHeader :=
  if data.length < FIXED_HEADER_SIZE then .error .insufficientData
  else
    match readFixedRaw data with
    | .error e => .error e
    | .ok h =>
      match h.validate with
      | .error e => .error e
      | .ok _ => .ok h

/-- `CompleteHeader` of header.rs. -/
structure CompleteHeader where
  fixed : FixedHeader
  seed : Option (List Nat)

/-- `CompleteHeader::read_from_bytes`: read and validate the fixed part, then
read the 32-byte seed when `SEED_EMBEDDED` is set (cursor position after the
fixed part is 14). -/
def CompleteHeader.read_from_bytes (data : List Nat) : Except HeaderError CompleteHeader :=
  if data.length < FIXED_HEADER_SIZE then .error .insufficientData
  else
    match readFixedRaw data with
    | .error e => .error e
    | .ok fixed =>
      match fixed.validate with
      | .error e => .error e
      | .ok _ =>
        if hasFlag fixed.flags FLAG_SEED_EMBEDDED then
          if data.length < FIXED_HEADER_SIZE + SEED_SIZE then .error .insufficientData
          else .ok ⟨fixed, some ((data.drop FIXED_HEADER_SIZE).take SEED_SIZE)⟩
        else .ok ⟨fixed, none⟩

/-- `CompleteHeader::header_size`. -/
def CompleteHeader.header_size (h : CompleteHeader) : Nat :=
  FIXED_HEADER_SIZE + if h.seed.isSome then SEED_SIZE else 0

/-! ## mod.rs: configuration types -/

/-- `SeedSource` of mod.rs.  A `Manual` seed is a 32-byte array in Rust;
here a `List Nat`, with its length constrained by hypotheses where needed. -/
inductive SeedSource where
  | auto
  | password (p : String)
  | manual (seed : List Nat)

/-- `EmbeddingPattern` of mod.rs. -/
inductive EmbeddingPattern where
  | linear
  | random (source : SeedSource)

/-- `LSBConfig` of mod.rs: a bit index and a pattern.  (`with_bit_index`
accepts any `u8`; theorems restrict to `bit_index < 8` as the claims do.) -/
structure LSBConfig where
  bit_index : Nat
  pattern : EmbeddingPattern

/-- `LSBConfig::linear()`: bit index 0, linear pattern. -/
def LSBConfig.linear : LSBConfig := ⟨0, .linear⟩

/-- `RuntimePattern` of mod.rs. -/
inductive RuntimePattern where
  | linear
  | random (seed : List Nat) (embed_seed : Bool)

/-- `RuntimeConfig` of mod.rs. -/
structure RuntimeConfig where
  bit_index : Nat
  pattern : RuntimePattern

/-- `RuntimeConfig::from_config`, with the two effectful seed producers
abstracted: `autoSeed` stands for the fresh CSPRNG seed drawn for
`SeedSource::Auto` (then marked for embedding) and `deriveSeed` for the
Argon2id derivation of `SeedSource::Password` (deterministic in the
password).  The crypto failure paths are not modelled. -/
def RuntimeConfig.from_config (autoSeed : List Nat) (deriveSeed : String → List Nat)
    (cfg : LSBConfig) : RuntimeConfig :=
  { bit_index := cfg.bit_index
    pattern :=
      match cfg.pattern with
      | .linear => .linear
      | .random src =>
        match src with
        | .auto => .random autoSeed true
        | .password p => .random (deriveSeed p) false
        | .manual s => .random s false }

/-! ## header.rs: HeaderEmbedder (writing) -/

/-- `HeaderEmbedder::build_header`: flags from the pattern, CRC over the six
covered bytes, optional embedded seed. -/
def HeaderEmbedder.build_header (pat : RuntimePattern) (payload_size : Nat) : CompleteHeader :=
  let flags :=
    match pat with
    | .linear => 0
    | .random _ es => FLAG_RANDOM_PATTERN ||| (if es then FLAG_SEED_EMBEDDED else 0)
  let seedOpt :=
    match pat with
    | .random s true => some s
    | _ => none
  let fixed0 : FixedHeader := ⟨VERSION, flags, payload_size, 0⟩
  ⟨{ fixed0 with crc32 := fixed0.calculate_crc }, seedOpt⟩

/-- The byte sequence `write_header` emits: magic, version, flags,
payload size (BE), crc32 (BE), then the seed when present. -/
def serializeHeader (h : CompleteHeader) : List Nat :=
  MAGIC ++ [h.fixed.version] ++ [h.fixed.flags] ++ be32 h.fixed.payload_size ++
    be32 h.fixed.crc32 ++ (match h.seed with | some s => s | none => [])

/-- `HeaderEmbedder::required_size`. -/
def HeaderEmbedder.required_size (c : RuntimeConfig) : Nat :=
  FIXED_HEADER_SIZE + match c.pattern with | .random _ true => SEED_SIZE | _ => 0

/-- `HeaderEmbedder::embed` on the header region: check the region holds the
header, then overwrite its prefix with the serialized header (the cursor
`write_all` calls), returning the cursor position (bytes written) and the
updated region.  A serialized header longer than the region (impossible for
32-byte seeds) is the cursor running out of space, an I/O error. -/
def HeaderEmbedder.embed (region : List Nat) (pat : RuntimePattern)
    (payload_size : Nat) : Except HeaderError (Nat × List Nat) :=
  let header := HeaderEmbedder.build_header pat payload_size
  let required := header.header_size
  if region.length < required then .error (.insufficientSpace required region.length)
  else
    let hb := serializeHeader header
    if region.length < hb.length then .error .ioError
    else .ok (hb.length, hb ++ region.drop hb.length)

/-! ## data.rs: BodyEmbedder -/

/-- The eight bits of a payload byte, least significant first: bit `k` is
`(byte >> k) & 1`, the order `write_u8` emits them in. -/
def byteBits (b : Nat) : List Nat :=
  (List.range 8).map fun k => (b >>> k) &&& 1

/-- All payload bits in embedding order (payload bytes in order, each
LSB-first), the concatenation of the `write_u8` calls of `embed_payload`. -/
def payloadBits (payload : List Nat) : List Nat :=
  payload.flatMap byteBits

/-- The index list `BodyEmbedder::new` builds over a body of length `n`.
The source collects `(0..bytes.len()).map(|i| i as u32)` into a `Vec<u32>`,
so each position index is truncated to `u32` (`% 2^32`) — for bodies of
`2^32` bytes or more the entries wrap and collide.  For `Linear` that
truncated range is used as is; for `Random` it is fully shuffled by
`SliceRandom::shuffle` (seeded by `ChaCha20Rng::from_seed(seed)`),
abstracted as `shuffleIdx seed n` (a permutation of the truncated range). -/
def bodyIndices (shuffleIdx : List Nat → Nat → List Nat)
    (pat : RuntimePattern) (n : Nat) : List Nat :=
  match pat with
  | .linear => (List.range n).map (· % 2 ^ 32)
  | .random seed _ => shuffleIdx seed n

/-- The write loop of `BodyEmbedder::write_u8`/`embed_payload`, one bit at a
time: each bit goes to the next index of the sequence via `embed_bit` at the
target plane.  Exhausting the index sequence is the `panic!` of `write_u8`
(`none`); an index outside the buffer would be a slice-indexing panic
(unreachable for the in-range sequences `BodyEmbedder::new` builds). -/
def writeBits (bytes : List Nat) (idxs : List Nat) (p : Nat) :
    List Nat → Option (List Nat)
  | [] => some bytes
  | b :: bs =>
    match idxs with
    | [] => none
    | i :: is =>
      if i < bytes.length then
        writeBits (bytes.set i (embed_bit p (bytes.getD i 0) b)) is p bs
      else none

/-- `BodyEmbedder::embed_payload`: write all payload bits.  (The
`indices.truncate` in the source acts on a discarded clone and has no
effect.) -/
def embed_payload (shuffleIdx : List Nat → Nat → List Nat) (bytes : List Nat)
    (pat : RuntimePattern) (p : Nat) (payload : List Nat) : Option (List Nat) :=
  writeBits bytes (bodyIndices shuffleIdx pat bytes.length) p (payloadBits payload)

/-- The read loop of `BodyEmbedder::read_u8`/`extract_payload`, one bit at a
time; the buffer is threaded through unchanged (reads only).  Exhausting the
index sequence is the `panic!` of `read_u8`. -/
def readBits (bytes : List Nat) (p : Nat) :
    Nat → List Nat → Option (List Nat × List Nat)
  | 0, _ => some ([], bytes)
  | _ + 1, [] => none
  | n + 1, i :: is =>
    if i < bytes.length then
      match readBits bytes p n is with
      | some (rest, bytesAfter) => some (extract_bit p (bytes.getD i 0) :: rest, bytesAfter)
      | none => none
    else none

/-- The byte accumulation of `read_u8`: `byte |= (bit & 1) << k` for
`k = 0..7` over eight consecutively read bits. -/
def byteFromBits (bits : List Nat) : Nat :=
  (List.range 8).foldl (fun acc k => acc ||| ((bits.getD k 0 &&& 1) <<< k)) 0

/-- Group a bit stream back into `size` bytes, eight bits per `read_u8`
call. -/
def bitsToBytes : Nat → List Nat → List Nat
  | 0, _ => []
  | n + 1, bits => byteFromBits (bits.take 8) :: bitsToBytes n (bits.drop 8)

/-- `BodyEmbedder::extract_payload`: read `size * 8` bits in sequence order
and reassemble `size` bytes; returns the payload and the (unchanged)
buffer. -/
def extract_payload (shuffleIdx : List Nat → Nat → List Nat) (bytes : List Nat)
    (pat : RuntimePattern) (p : Nat) (size : Nat) : Option (List Nat × List Nat) :=
  match readBits bytes p (size * 8) (bodyIndices shuffleIdx pat bytes.length) with
  | some (bits, bytesAfter) => some (bitsToBytes size bits, bytesAfter)
  | none => none

/-! ## mod.rs: seed reconstruction and the orchestrator -/

/-- `RuntimePattern::reconstruct_seed`. -/
def RuntimePattern.reconstruct_seed (deriveSeed : String → List Nat)
    (header : CompleteHeader) (cfg : LSBConfig) : Except PngerError (List Nat) :=
  if hasFlag header.fixed.flags FLAG_SEED_EMBEDDED then
    match header.seed with
    | some s => .ok s
    | none => .error (.invalidFormat "Seed embedded flag set but no seed data")
  else
    match cfg.pattern with
    | .random src =>
      match src with
      | .password p => .ok (deriveSeed p)
      | .manual s => .ok s
      | .auto => .error (.invalidFormat "Auto seed source but no seed embedded")
    | .linear => .error (.invalidFormat "Linear pattern expected but random pattern found")

/-- `RuntimePattern::from_header_and_config`. -/
def RuntimePattern.from_header_and_config (deriveSeed : String → List Nat)
    (header : CompleteHeader) (cfg : LSBConfig) : Except PngerError RuntimePattern :=
  if hasFlag header.fixed.flags FLAG_RANDOM_PATTERN then
    match RuntimePattern.reconstruct_seed deriveSeed header cfg with
    | .error e => .error e
    | .ok seed => .ok (.random seed (hasFlag header.fixed.flags FLAG_SEED_EMBEDDED))
  else .ok .linear

/-- Outcome of a call: a value, a returned error, or a Rust panic. -/
inductive Outcome (α : Type) where
  | ok (val : α)
  | error (e : PngerError)
  | panicked
deriving DecidableEq

/-- `EmbedResult` of mod.rs. -/
structure EmbedResult where
  bytes_used : Nat
  header_size : Nat
  seed_embedded : Bool
deriving DecidableEq

/-- `ExtractResult` of mod.rs. -/
structure ExtractResult where
  payload : List Nat
  header_size : Nat
  seed_was_embedded : Bool
deriving DecidableEq

/-- The `matches!(pattern, Random { embed_seed: true, .. })` test of
`LSBEmbedder::embed`. -/
def patternEmbedsSeed : RuntimePattern → Bool
  | .random _ true => true
  | _ => false

/-- `LSBEmbedder::embed`.  Returns the result together with the final buffer
(`split_at_mut` reassembled).  `image.length < header_size` makes
`split_at_mut` panic; running out of body indices makes `write_u8` panic.
The payload length is truncated to `u32` when written to the header. -/
def LSBEmbedder.embed (shuffleIdx : List Nat → Nat → List Nat)
    (autoSeed : List Nat) (deriveSeed : String → List Nat)
    (image payload : List Nat) (cfg : LSBConfig) : Outcome (EmbedResult × List Nat) :=
  let rc := RuntimeConfig.from_config autoSeed deriveSeed cfg
  let header_size := HeaderEmbedder.required_size rc
  let seed_embedded := patternEmbedsSeed rc.pattern
  if image.length < header_size then .panicked
  else
    let header_data := image.take header_size
    let body_data := image.drop header_size
    match HeaderEmbedder.embed header_data rc.pattern (payload.length % 2 ^ 32) with
    | .error e => .error e.toPngerError
    | .ok (header_bytes_used, header_written) =>
      match embed_payload shuffleIdx body_data rc.pattern rc.bit_index payload with
      | none => .panicked
      | some body_written =>
        .ok (⟨header_bytes_used + payload.length * 8, header_size, seed_embedded⟩,
             header_written ++ body_written)

/-- `LSBEmbedder::extract`.  Returns the outcome together with the final
state of the (mutably borrowed) buffer on every path — the extraction path
contains no writes, so each path hands back the buffer as the reads left it.
Slicing `image[..header_size]` with a buffer shorter than the header size
panics. -/
def LSBEmbedder.extract (shuffleIdx : List Nat → Nat → List Nat)
    (deriveSeed : String → List Nat) (image : List Nat) (cfg : LSBConfig) :
    Outcome ExtractResult × List Nat :=
  match FixedHeader.read_from_bytes image with
  | .error e => (.error e.toPngerError, image)
  | .ok fixed =>
    let header_size := fixed.calculate_total_header_size
    if image.length < header_size then (.panicked, image)
    else
      match CompleteHeader.read_from_bytes (image.take header_size) with
      | .error e => (.error e.toPngerError, image)
      | .ok complete =>
        let seed_was_embedded := hasFlag complete.fixed.flags FLAG_SEED_EMBEDDED
        match RuntimePattern.from_header_and_config deriveSeed complete cfg with
        | .error e => (.error e, image)
        | .ok pat =>
          let body_data := image.drop header_size
          match extract_payload shuffleIdx body_data pat cfg.bit_index
              complete.fixed.payload_size with
          | none => (.panicked, image)
          | some (payload, body_after) =>
            (.ok ⟨payload, header_size, seed_was_embedded⟩,
             image.take header_size ++ body_after)

/-! ## Basic facts about the bit codec -/

/-- `embed_bit` only uses the low bit of its bit argument. -/
theorem embed_bit_mask (p c b : Nat) : embed_bit p c b = embed_bit p c (b &&& 1) := by
  simp [embed_bit, Nat.and_assoc]

/-- Bounded check: `embed_bit` keeps bytes below 256. -/
theorem embed_bit_bounded : ∀ p < 8, ∀ c < 256, ∀ b < 2, embed_bit p c b < 256 := by decide

/-- Bounded check: reading back the target plane returns the written bit. -/
theorem extract_embed_bit_same : ∀ p < 8, ∀ c < 256, ∀ b < 2,
    extract_bit p (embed_bit p c b) = b := by decide

set_option maxHeartbeats 1000000 in
/-- Bounded check: planes other than the target are untouched by `embed_bit`. -/
theorem extract_embed_bit_other : ∀ p < 8, ∀ q < 8, ∀ c < 256, ∀ b < 2,
    q ≠ p → extract_bit q (embed_bit p c b) = extract_bit q c := by decide

/-- The low bit of anything is below 2. -/
theorem and_one_lt_two (b : Nat) : b &&& 1 < 2 :=
  Nat.lt_succ_of_le Nat.and_le_right

/-- `embed_bit` keeps bytes below 256 (arbitrary bit argument). -/
theorem embed_bit_lt {p c : Nat} (hp : p < 8) (hc : c < 256) (b : Nat) :
    embed_bit p c b < 256 := by
  rw [embed_bit_mask]
  exact embed_bit_bounded p hp c hc (b &&& 1) (and_one_lt_two b)

/-- Reading back the target plane returns the low bit of the written value. -/
theorem extract_embed_same {p c : Nat} (hp : p < 8) (hc : c < 256) (b : Nat) :
    extract_bit p (embed_bit p c b) = b &&& 1 := by
  rw [embed_bit_mask]
  exact extract_embed_bit_same p hp c hc (b &&& 1) (and_one_lt_two b)

/-- Planes other than the target are untouched by `embed_bit`. -/
theorem extract_embed_other {p q c : Nat} (hp : p < 8) (hq : q < 8) (hc : c < 256)
    (b : Nat) (hne : q ≠ p) : extract_bit q (embed_bit p c b) = extract_bit q c := by
  rw [embed_bit_mask]
  exact extract_embed_bit_other p hp q hq c hc (b &&& 1) (and_one_lt_two b) hne

/-- Bounded check: reassembling the eight LSB-first bits of a byte returns
the byte. -/
theorem byteFromBits_byteBits : ∀ b < 256, byteFromBits (byteBits b) = b := by decide

/-- Bounded check: masking a bit value (0 or 1) with 1 is the identity. -/
theorem and_one_of_lt_two : ∀ b < 2, b &&& 1 = b := by decide

/-! ## Small list helpers -/

/-- `getD` at an in-range index is a member of the list. -/
theorem getD_mem {α : Type} {l : List α} {i : Nat} (h : i < l.length) (d : α) :
    l.getD i d ∈ l := by
  simp only [List.getD_eq_getElem?_getD, List.getElem?_eq_getElem h, Option.getD_some]
  exact List.getElem_mem h

/-- `getD` after `set` at the same (in-range) index. -/
theorem getD_set_self {α : Type} {l : List α} {i : Nat} (h : i < l.length) (a d : α) :
    (l.set i a).getD i d = a := by
  simp [List.getD_eq_getElem?_getD, List.getElem?_set_self h]

/-- `getD` after `set` at a different index. -/
theorem getD_set_ne {α : Type} {l : List α} {i j : Nat} (h : i ≠ j) (a d : α) :
    (l.set i a).getD j d = l.getD j d := by
  simp [List.getD_eq_getElem?_getD, List.getElem?_set_ne h]

/-! ## Facts about the payload bit stream -/

/-- `payloadBits` on a cons. -/
theorem payloadBits_cons (b : Nat) (rest : List Nat) :
    payloadBits (b :: rest) = byteBits b ++ payloadBits rest := rfl

/-- Each byte produces eight bits. -/
theorem byteBits_length (b : Nat) : (byteBits b).length = 8 := by simp [byteBits]

/-- The bit stream has eight bits per payload byte. -/
theorem payloadBits_length (payload : List Nat) :
    (payloadBits payload).length = 8 * payload.length := by
  induction payload with
  | nil => rfl
  | cons b rest ih =>
    simp only [payloadBits_cons, List.length_append, byteBits_length, ih, List.length_cons]
    omega

/-- Every emitted bit is 0 or 1 (`write_u8` masks with `& 1`). -/
theorem payloadBits_lt_two (payload : List Nat) : ∀ x ∈ payloadBits payload, x < 2 := by
  intro x hx
  induction payload with
  | nil => simp [payloadBits] at hx
  | cons b rest ih =>
    rw [payloadBits_cons, List.mem_append] at hx
    rcases hx with hx | hx
    · simp only [byteBits, List.mem_map] at hx
      obtain ⟨k, _, rfl⟩ := hx
      simpa [Nat.and_one_is_mod] using Nat.mod_lt _ (by norm_num)
    · exact ih hx

/-- Reassembling the bit stream of a byte-bounded payload returns the
payload. -/
theorem bitsToBytes_payloadBits (payload : List Nat) (hp : ∀ b ∈ payload, b < 256) :
    bitsToBytes payload.length (payloadBits payload) = payload := by
  induction payload with
  | nil => rfl
  | cons b rest ih =>
    have hb : b < 256 := hp b (by simp)
    have h8 : (byteBits b).length = 8 := byteBits_length b
    show byteFromBits ((byteBits b ++ payloadBits rest).take 8) ::
        bitsToBytes rest.length ((byteBits b ++ payloadBits rest).drop 8) = b :: rest
    rw [List.take_left' h8, List.drop_left' h8, byteFromBits_byteBits b hb,
      ih (fun x hx => hp x (by simp [hx]))]

/-! ## The write loop: success and the state it leaves behind -/

/-- Unfolding equation of the write loop in the in-range case. -/
theorem writeBits_cons_of_lt {bytes : List Nat} {i : Nat} (h : i < bytes.length)
    (is : List Nat) (p b : Nat) (bs : List Nat) :
    writeBits bytes (i :: is) p (b :: bs) =
      writeBits (bytes.set i (embed_bit p (bytes.getD i 0) b)) is p bs := by
  simp only [writeBits]
  rw [if_pos h]

/-- Main property of the write loop.  Writing a bit sequence along distinct
in-range indices succeeds, keeps the buffer length and byte bound, leaves
positions outside the consumed index prefix unchanged, stores bit `k` at the
target plane of position `idxs[k]`, and preserves every other bit plane
everywhere. -/
theorem writeBits_spec {p : Nat} (hp : p < 8) :
    ∀ (bits idxs bytes : List Nat),
      idxs.Nodup →
      (∀ i ∈ idxs, i < bytes.length) →
      bits.length ≤ idxs.length →
      (∀ b ∈ bytes, b < 256) →
      ∃ out, writeBits bytes idxs p bits = some out ∧
        out.length = bytes.length ∧
        (∀ b ∈ out, b < 256) ∧
        (∀ j, j ∉ idxs.take bits.length → out.getD j 0 = bytes.getD j 0) ∧
        (∀ k, k < bits.length →
          extract_bit p (out.getD (idxs.getD k 0) 0) = bits.getD k 0 &&& 1) ∧
        (∀ j q, q < 8 → q ≠ p → extract_bit q (out.getD j 0) = extract_bit q (bytes.getD j 0)) := by
  intro bits
  induction bits with
  | nil =>
    intro idxs bytes _ _ _ hbnd
    exact ⟨bytes, by simp [writeBits], rfl, hbnd, fun _ _ => rfl,
      fun k hk => absurd hk (Nat.not_lt_zero k), fun _ _ _ _ => rfl⟩
  | cons b bs ih =>
    intro idxs bytes hnd hin hlen hbnd
    cases idxs with
    | nil => simp at hlen
    | cons i is =>
      have hi : i < bytes.length := hin i (by simp)
      have hci : bytes.getD i 0 < 256 := hbnd _ (getD_mem hi 0)
      have hinotis : i ∉ is := (List.nodup_cons.mp hnd).1
      set bytes1 := bytes.set i (embed_bit p (bytes.getD i 0) b) with hb1
      have hlen1 : bytes1.length = bytes.length := List.length_set ..
      have hbnd1 : ∀ x ∈ bytes1, x < 256 := by
        intro x hx
        rcases List.mem_or_eq_of_mem_set hx with hx | rfl
        · exact hbnd x hx
        · exact embed_bit_lt hp hci b
      obtain ⟨out, heq, hlo, hbo, hframe, hbit, hplane⟩ :=
        ih is bytes1 (List.nodup_cons.mp hnd).2
          (fun x hx => hlen1 ▸ hin x (by simp [hx]))
          (by simpa using hlen) hbnd1
      refine ⟨out, ?_, by rw [hlo, hlen1], hbo, ?_, ?_, ?_⟩
      · rw [writeBits_cons_of_lt hi, ← hb1]
        exact heq
      · intro j hj
        rw [List.length_cons, List.take_succ_cons] at hj
        simp only [List.mem_cons, not_or] at hj
        rw [hframe j hj.2, getD_set_ne (Ne.symm hj.1)]
      · intro k hk
        cases k with
        | zero =>
          have : out.getD i 0 = bytes1.getD i 0 :=
            hframe i fun hmem => hinotis (List.mem_of_mem_take hmem)
          rw [List.getD_cons_zero, this, hb1, getD_set_self hi,
            extract_embed_same hp hci, List.getD_cons_zero]
        | succ k =>
          rw [List.getD_cons_succ, List.getD_cons_succ]
          exact hbit k (by simpa using hk)
      · intro j q hq hqp
        rw [hplane j q hq hqp]
        by_cases hji : j = i
        · subst hji
          rw [hb1, getD_set_self hi, extract_embed_other hp hq hci b hqp]
        · rw [hb1, getD_set_ne (fun h => hji h.symm)]

/-! ## The read loop -/

/-- The read loop succeeds along an index sequence long enough and in range,
returns the target-plane bits of the indexed positions in order, and hands
the buffer back unchanged. -/
theorem readBits_spec (p : Nat) :
    ∀ (count : Nat) (idxs bytes : List Nat),
      count ≤ idxs.length →
      (∀ i ∈ idxs, i < bytes.length) →
      readBits bytes p count idxs =
        some ((idxs.take count).map (fun i => extract_bit p (bytes.getD i 0)), bytes) := by
  intro count
  induction count with
  | zero => intro idxs bytes _ _; simp [readBits]
  | succ n ih =>
    intro idxs bytes hlen hin
    cases idxs with
    | nil => simp at hlen
    | cons i is =>
      have hi : i < bytes.length := hin i (by simp)
      have := ih is bytes (by simpa using hlen) (fun x hx => hin x (by simp [hx]))
      simp [readBits, hi, this, List.take_succ_cons]

/-- Whatever the read loop returns, the buffer component is the input
buffer: reads never write. -/
theorem readBits_snd (p : Nat) :
    ∀ (count : Nat) (idxs bytes bits out : List Nat),
      readBits bytes p count idxs = some (bits, out) → out = bytes := by
  intro count
  induction count with
  | zero =>
    intro idxs bytes bits out h
    simp only [readBits, Option.some.injEq, Prod.mk.injEq] at h
    exact h.2.symm
  | succ n ih =>
    intro idxs bytes bits out h
    cases idxs with
    | nil => simp [readBits] at h
    | cons i is =>
      by_cases hi : i < bytes.length
      · simp only [readBits, if_pos hi] at h
        cases hrec : readBits bytes p n is with
        | none => rw [hrec] at h; simp at h
        | some v =>
          obtain ⟨rest, bytesAfter⟩ := v
          rw [hrec] at h
          simp only [Option.some.injEq, Prod.mk.injEq] at h
          exact h.2 ▸ ih is bytes rest bytesAfter hrec
      · simp [readBits, hi] at h

/-- `extract_payload` hands the buffer back unchanged. -/
theorem extract_payload_snd (shuffleIdx : List Nat → Nat → List Nat)
    (bytes : List Nat) (pat : RuntimePattern) (p size : Nat)
    (payload out : List Nat)
    (h : extract_payload shuffleIdx bytes pat p size = some (payload, out)) :
    out = bytes := by
  unfold extract_payload at h
  cases hr : readBits bytes p (size * 8) (bodyIndices shuffleIdx pat bytes.length) with
  | none => rw [hr] at h; simp at h
  | some v =>
    obtain ⟨bits, bytesAfter⟩ := v
    rw [hr] at h
    simp only [Option.some.injEq, Prod.mk.injEq] at h
    exact h.2 ▸ readBits_snd p (size * 8) _ bytes bits bytesAfter hr

/-! ## Big-endian serialization facts -/

/-- Reading back four serialized big-endian bytes returns the value. -/
theorem readBE32_be32 (x : Nat) (hx : x < 2 ^ 32) (rest : List Nat) :
    readBE32 (be32 x ++ rest) = x := by
  simp only [be32, List.cons_append, List.nil_append, readBE32, List.getD_cons_zero,
    List.getD_cons_succ]
  omega

/-- Serialized big-endian bytes are bytes. -/
theorem be32_mem_lt (x : Nat) : ∀ y ∈ be32 x, y < 256 := by
  simp only [be32, List.mem_cons, List.not_mem_nil, or_false]
  rintro y (rfl | rfl | rfl | rfl) <;> omega

/-- `be32` has four bytes. -/
theorem be32_length (x : Nat) : (be32 x).length = 4 := by simp [be32]

/-- Serializing a value read from four bytes returns the bytes. -/
theorem be32_readBE32 (l : List Nat) (h : l.length = 4) (hb : ∀ b ∈ l, b < 256) :
    be32 (readBE32 l) = l := by
  match l, h with
  | [a, b, c, d], _ =>
    have ha : a < 256 := hb a (by simp)
    have hbb : b < 256 := hb b (by simp)
    have hcc : c < 256 := hb c (by simp)
    have hdd : d < 256 := hb d (by simp)
    simp only [readBE32, be32, List.getD_cons_zero, List.getD_cons_succ, List.getD_nil,
      List.cons.injEq, and_true]
    refine ⟨?_, ?_, ?_, ?_⟩ <;> omega

/-! ## CRC state bounds -/

/-- One CRC step keeps the state inside `u32`. -/
theorem crcStep_lt {c : Nat} (h : c < 2 ^ 32) : crcStep c < 2 ^ 32 := by
  unfold crcStep
  have h2 : c >>> 1 < 2 ^ 32 := by
    rw [Nat.shiftRight_eq_div_pow]
    omega
  split
  · exact Nat.xor_lt_two_pow h2 (by norm_num [CRC_POLY])
  · exact h2

/-- Iterated CRC steps keep the state inside `u32`. -/
theorem crcSteps_lt : ∀ (n : Nat) {c : Nat}, c < 2 ^ 32 → crcSteps n c < 2 ^ 32
  | 0, _, h => h
  | n + 1, _, h => crcSteps_lt n (crcStep_lt h)

/-- Absorbing a byte keeps the state inside `u32`. -/
theorem crcByte_lt {c b : Nat} (hc : c < 2 ^ 32) (hb : b < 256) : crcByte c b < 2 ^ 32 :=
  crcSteps_lt 8 (Nat.xor_lt_two_pow hc (by omega))

/-- Folding a byte message keeps the state inside `u32`. -/
theorem crcFold_lt : ∀ (m : List Nat) {c : Nat}, (∀ b ∈ m, b < 256) → c < 2 ^ 32 →
    crcFold c m < 2 ^ 32
  | [], _, _, hc => hc
  | b :: bs, _, hm, hc =>
    crcFold_lt bs (fun x hx => hm x (by simp [hx])) (crcByte_lt hc (hm b (by simp)))

/-- The CRC of a byte message is a `u32` value. -/
theorem crc32_lt (m : List Nat) (hm : ∀ b ∈ m, b < 256) : Pnger.crc32 m < 2 ^ 32 :=
  Nat.xor_lt_two_pow (crcFold_lt m hm (by norm_num)) (by norm_num)

/-! ## Parsing a serialized header -/

/-- `readFixedRaw` on a serialized fixed header (any tail) recovers the
fields. -/
theorem readFixedRaw_ok (f s c : Nat) (hs : s < 2 ^ 32) (hc : c < 2 ^ 32)
    (tail : List Nat) :
    readFixedRaw (0x50 :: 0x4E :: 0x47 :: 0x52 :: VERSION :: f ::
        (be32 s ++ (be32 c ++ tail))) =
      .ok ⟨VERSION, f, s, c⟩ := by
  have htake : (0x50 :: 0x4E :: 0x47 :: 0x52 :: VERSION :: f ::
      (be32 s ++ (be32 c ++ tail))).take 4 = MAGIC := rfl
  have hget4 : (0x50 :: 0x4E :: 0x47 :: 0x52 :: VERSION :: f ::
      (be32 s ++ (be32 c ++ tail))).getD 4 0 = VERSION := rfl
  have hget5 : (0x50 :: 0x4E :: 0x47 :: 0x52 :: VERSION :: f ::
      (be32 s ++ (be32 c ++ tail))).getD 5 0 = f := rfl
  have hdrop6 : (0x50 :: 0x4E :: 0x47 :: 0x52 :: VERSION :: f ::
      (be32 s ++ (be32 c ++ tail))).drop 6 = be32 s ++ (be32 c ++ tail) := rfl
  have hdrop10 : (0x50 :: 0x4E :: 0x47 :: 0x52 :: VERSION :: f ::
      (be32 s ++ (be32 c ++ tail))).drop 10 = be32 c ++ tail := by
    rw [show (10 : Nat) = 6 + 4 from rfl, ← List.drop_drop, hdrop6,
      List.drop_left' (be32_length s)]
  simp only [readFixedRaw, htake, hget4, hget5, hdrop6, hdrop10]
  rw [if_neg (by simp), if_neg (by simp)]
  rw [readBE32_be32 s hs, readBE32_be32 c hc]

/-- The serialized fixed header in cons normal form. -/
theorem serializeHeader_eq (h : CompleteHeader) :
    serializeHeader h = 0x50 :: 0x4E :: 0x47 :: 0x52 :: h.fixed.version :: h.fixed.flags ::
      (be32 h.fixed.payload_size ++ (be32 h.fixed.crc32 ++
        (match h.seed with | some s => s | none => []))) := by
  simp [serializeHeader, MAGIC]

/-- Length of a serialized header. -/
theorem serializeHeader_length (h : CompleteHeader) :
    (serializeHeader h).length =
      14 + (match h.seed with | some s => s.length | none => 0) := by
  rw [serializeHeader_eq]
  cases h.seed <;> simp [be32_length] <;> omega

/-- `FixedHeader::read_from_bytes` on a serialized well-formed header (any
tail) recovers the fixed fields. -/
theorem read_from_bytes_serialize (h : CompleteHeader)
    (hv : h.fixed.version = VERSION) (hs : h.fixed.payload_size < 2 ^ 32)
    (hcrc : h.fixed.crc32 < 2 ^ 32)
    (hvalid : h.fixed.crc32 = h.fixed.calculate_crc) (rest : List Nat) :
    FixedHeader.read_from_bytes (serializeHeader h ++ rest) = .ok h.fixed := by
  obtain ⟨⟨v, f, s, c⟩, seedOpt⟩ := h
  dsimp only at hv hs hcrc hvalid ⊢
  subst hv
  have hlen : (serializeHeader ⟨⟨VERSION, f, s, c⟩, seedOpt⟩ ++ rest).length ≥ 14 := by
    rw [List.length_append, serializeHeader_length]
    omega
  have hraw : readFixedRaw (serializeHeader ⟨⟨VERSION, f, s, c⟩, seedOpt⟩ ++ rest) =
      .ok ⟨VERSION, f, s, c⟩ := by
    rw [serializeHeader_eq]
    simp only [List.cons_append, List.append_assoc]
    exact readFixedRaw_ok f s c hs hcrc _
  have hval : FixedHeader.validate ⟨VERSION, f, s, c⟩ = .ok () := by
    simp only [FixedHeader.validate]
    rw [if_neg (by simpa using hvalid)]
  rw [FixedHeader.read_from_bytes,
    if_neg (by simp only [FIXED_HEADER_SIZE]; omega), hraw]
  dsimp only
  rw [hval]

/-- `CompleteHeader::read_from_bytes` on a serialized well-formed header
(exactly, no tail) recovers the complete header. -/
theorem complete_read_serialize (h : CompleteHeader)
    (hv : h.fixed.version = VERSION) (hs : h.fixed.payload_size < 2 ^ 32)
    (hcrc : h.fixed.crc32 < 2 ^ 32)
    (hvalid : h.fixed.crc32 = h.fixed.calculate_crc)
    (hflag : hasFlag h.fixed.flags FLAG_SEED_EMBEDDED = h.seed.isSome)
    (hseedlen : ∀ s, h.seed = some s → s.length = 32) :
    CompleteHeader.read_from_bytes (serializeHeader h) = .ok ⟨h.fixed, h.seed⟩ := by
  obtain ⟨⟨v, f, s, c⟩, seedOpt⟩ := h
  dsimp only at hv hs hcrc hvalid hflag hseedlen ⊢
  subst hv
  have hraw : readFixedRaw (serializeHeader ⟨⟨VERSION, f, s, c⟩, seedOpt⟩) =
      .ok ⟨VERSION, f, s, c⟩ := by
    have := readFixedRaw_ok f s c hs hcrc
      (match seedOpt with | some sd => sd | none => [])
    rw [serializeHeader_eq]
    simpa using this
  have hval : FixedHeader.validate ⟨VERSION, f, s, c⟩ = .ok () := by
    simp only [FixedHeader.validate]
    rw [if_neg (by simpa using hvalid)]
  have hlen14 : ¬ (serializeHeader ⟨⟨VERSION, f, s, c⟩, seedOpt⟩).length <
      FIXED_HEADER_SIZE := by
    rw [serializeHeader_length]
    cases seedOpt <;> simp [FIXED_HEADER_SIZE]
  rw [CompleteHeader.read_from_bytes, if_neg hlen14, hraw]
  dsimp only
  rw [hval]
  cases seedOpt with
  | none =>
    simp only [Option.isSome_none] at hflag
    simp [hflag]
  | some seedBytes =>
    have hsl : seedBytes.length = 32 := hseedlen seedBytes rfl
    simp only [Option.isSome_some] at hflag
    have hlen46 : ¬ (serializeHeader ⟨⟨VERSION, f, s, c⟩, some seedBytes⟩).length <
        FIXED_HEADER_SIZE + SEED_SIZE := by
      rw [serializeHeader_length]
      simp [FIXED_HEADER_SIZE, SEED_SIZE, hsl]
    have hseedpart : ((serializeHeader ⟨⟨VERSION, f, s, c⟩, some seedBytes⟩).drop
        FIXED_HEADER_SIZE).take SEED_SIZE = seedBytes := by
      rw [serializeHeader_eq]
      show ((0x50 :: 0x4E :: 0x47 :: 0x52 :: VERSION :: f ::
        (be32 s ++ (be32 c ++ seedBytes))).drop 14).take 32 = seedBytes
      rw [show (14 : Nat) = 10 + 4 from rfl, ← List.drop_drop,
        show (10 : Nat) = 6 + 4 from rfl, ← List.drop_drop]
      rw [show (0x50 :: 0x4E :: 0x47 :: 0x52 :: VERSION :: f ::
        (be32 s ++ (be32 c ++ seedBytes))).drop 6 =
          be32 s ++ (be32 c ++ seedBytes) from rfl]
      rw [List.drop_left' (be32_length _), List.drop_left' (be32_length _)]
      rw [← hsl, List.take_length]
    rw [hflag, if_pos rfl, if_neg hlen46, hseedpart]

/-! ## Facts about the built header -/

/-- The built header carries version 1. -/
theorem build_header_version (pat : RuntimePattern) (size : Nat) :
    (HeaderEmbedder.build_header pat size).fixed.version = VERSION := by
  cases pat <;> rfl

/-- The built header carries the payload size it was given. -/
theorem build_header_payload_size (pat : RuntimePattern) (size : Nat) :
    (HeaderEmbedder.build_header pat size).fixed.payload_size = size := by
  cases pat <;> rfl

/-- `calculate_crc` does not read the CRC field. -/
theorem calculate_crc_ignores_crc (v f s c c' : Nat) :
    FixedHeader.calculate_crc ⟨v, f, s, c⟩ = FixedHeader.calculate_crc ⟨v, f, s, c'⟩ := rfl

/-- The built header stores a CRC equal to the recomputation over its own
fields (the CRC field itself is not covered). -/
theorem build_header_crc_valid (pat : RuntimePattern) (size : Nat) :
    (HeaderEmbedder.build_header pat size).fixed.crc32 =
      (HeaderEmbedder.build_header pat size).fixed.calculate_crc := by
  cases pat with
  | linear => exact calculate_crc_ignores_crc ..
  | random s es => cases es <;> exact calculate_crc_ignores_crc ..

/-- The built flags byte is 0, 1 or 3, hence a byte. -/
theorem build_header_flags_lt (pat : RuntimePattern) (size : Nat) :
    (HeaderEmbedder.build_header pat size).fixed.flags < 256 := by
  cases pat with
  | linear => dsimp only [HeaderEmbedder.build_header]; decide
  | random s es => cases es <;> (dsimp only [HeaderEmbedder.build_header]; decide)

/-- The SEED_EMBEDDED flag of the built header tracks the presence of the
embedded seed. -/
theorem build_header_seed_flag (pat : RuntimePattern) (size : Nat) :
    hasFlag (HeaderEmbedder.build_header pat size).fixed.flags FLAG_SEED_EMBEDDED =
      (HeaderEmbedder.build_header pat size).seed.isSome := by
  cases pat with
  | linear => dsimp only [HeaderEmbedder.build_header, Option.isSome]; decide
  | random s es =>
    cases es <;> (dsimp only [HeaderEmbedder.build_header, Option.isSome]; decide)

/-- The seed stored by the built header is the random pattern seed. -/
theorem build_header_seed (s : List Nat) (size : Nat) :
    (HeaderEmbedder.build_header (.random s true) size).seed = some s := rfl

/-- `HeaderEmbedder::embed` on a region exactly fitting the header: returns
the serialized length and overwrites the region with the serialization. -/
theorem headerEmbedder_embed_eq (pat : RuntimePattern) (size : Nat) (region : List Nat)
    (hhs : (HeaderEmbedder.build_header pat size).header_size = region.length)
    (hsl : (serializeHeader (HeaderEmbedder.build_header pat size)).length = region.length) :
    HeaderEmbedder.embed region pat size =
      .ok ((serializeHeader (HeaderEmbedder.build_header pat size)).length,
        serializeHeader (HeaderEmbedder.build_header pat size)) := by
  unfold HeaderEmbedder.embed
  rw [if_neg (by omega), if_neg (by omega),
    List.drop_eq_nil_of_le (by omega), List.append_nil]


/-- Helper: `getD` with default at an in-range index is `getElem`. -/
theorem getD_eq_getElem' {l : List Nat} {k : Nat} (h : k < l.length) :
    l.getD k 0 = l[k] := by
  simp [List.getD_eq_getElem?_getD, List.getElem?_eq_getElem h]


/-- Unfolding of a successful `LSBEmbedder::extract` run, stated over an
abstract image so each phase is discharged by hypothesis. -/
theorem extract_eq_of (shuffleIdx : List Nat → Nat → List Nat)
    (deriveSeed : String → List Nat) (img : List Nat) (cfg : LSBConfig)
    (fx : FixedHeader) (sd : Option (List Nat)) (pat : RuntimePattern)
    (pl : List Nat) (hsz : Nat)
    (h1 : FixedHeader.read_from_bytes img = .ok fx)
    (h2 : fx.calculate_total_header_size = hsz)
    (h3 : ¬ img.length < hsz)
    (h4 : CompleteHeader.read_from_bytes (img.take hsz) = .ok ⟨fx, sd⟩)
    (h5 : RuntimePattern.from_header_and_config deriveSeed ⟨fx, sd⟩ cfg = .ok pat)
    (h6 : extract_payload shuffleIdx (img.drop hsz) pat cfg.bit_index fx.payload_size =
      some (pl, img.drop hsz)) :
    (LSBEmbedder.extract shuffleIdx deriveSeed img cfg).1 =
      .ok ⟨pl, hsz, hasFlag fx.flags FLAG_SEED_EMBEDDED⟩ := by
  simp only [LSBEmbedder.extract, h1]
  rw [h2]
  rw [if_neg h3]
  simp only [h4, h5, h6]

/-- Core of the roundtrip: with the resolved pattern fixed, an index
sequence that permutes the body range, and the per-pattern header facts
discharged, embed succeeds and the subsequent extract returns the original
payload. -/
theorem roundtrip_core (shuffleIdx : List Nat → Nat → List Nat)
    (autoSeed : List Nat) (deriveSeed : String → List Nat)
    (samples payload : List Nat) (cfg : LSBConfig) (pat : RuntimePattern)
    (hrc : RuntimeConfig.from_config autoSeed deriveSeed cfg = ⟨cfg.bit_index, pat⟩)
    (hbit : cfg.bit_index < 8)
    (hsamples : ∀ b ∈ samples, b < 256)
    (hpayload : ∀ b ∈ payload, b < 256)
    (hlen32 : payload.length < 2 ^ 32)
    (hseedlen : ∀ s, (HeaderEmbedder.build_header pat payload.length).seed = some s →
      s.length = 32)
    (hsl : (serializeHeader (HeaderEmbedder.build_header pat payload.length)).length =
      HeaderEmbedder.required_size ⟨cfg.bit_index, pat⟩)
    (hhs : (HeaderEmbedder.build_header pat payload.length).header_size =
      HeaderEmbedder.required_size ⟨cfg.bit_index, pat⟩)
    (htot : (HeaderEmbedder.build_header pat
        payload.length).fixed.calculate_total_header_size =
      HeaderEmbedder.required_size ⟨cfg.bit_index, pat⟩)
    (hrecon : RuntimePattern.from_header_and_config deriveSeed
      ⟨(HeaderEmbedder.build_header pat payload.length).fixed,
       (HeaderEmbedder.build_header pat payload.length).seed⟩ cfg = .ok pat)
    (hperm : ∀ n, n ≤ samples.length → (bodyIndices shuffleIdx pat n).Perm (List.range n))
    (hcap : payload.length * 8 + HeaderEmbedder.required_size ⟨cfg.bit_index, pat⟩ ≤
      samples.length) :
    ∃ res img extres,
      LSBEmbedder.embed shuffleIdx autoSeed deriveSeed samples payload cfg = .ok (res, img) ∧
      (LSBEmbedder.extract shuffleIdx deriveSeed img cfg).1 = .ok extres ∧
      extres.payload = payload := by
  set H := HeaderEmbedder.build_header pat payload.length with hH
  set hsz := HeaderEmbedder.required_size ⟨cfg.bit_index, pat⟩ with hhsz
  set sh := serializeHeader H with hsh
  have hhsle : hsz ≤ samples.length := by omega
  set body := samples.drop hsz with hbody
  have hbodylen : body.length = samples.length - hsz := List.length_drop ..
  set idxs := bodyIndices shuffleIdx pat body.length with hidxs
  have hpermb : idxs.Perm (List.range body.length) := hperm _ (by rw [hbodylen]; omega)
  have hnodup : idxs.Nodup := (hpermb.nodup_iff).mpr (List.nodup_range _)
  have hmem : ∀ i ∈ idxs, i < body.length := fun i hi =>
    List.mem_range.mp (hpermb.mem_iff.mp hi)
  have hidxlen : idxs.length = body.length := by
    rw [hpermb.length_eq, List.length_range]
  have hbits_le : (payloadBits payload).length ≤ idxs.length := by
    rw [payloadBits_length, hidxlen, hbodylen]; omega
  have hbodybnd : ∀ b ∈ body, b < 256 := fun b hb => hsamples b (List.mem_of_mem_drop hb)
  obtain ⟨out, hwrite, hlenout, hbndout, hframe, hbitsv, hplane⟩ :=
    writeBits_spec hbit (payloadBits payload) idxs body hnodup hmem hbits_le hbodybnd
  have htake : (samples.take hsz).length = hsz := by
    rw [List.length_take]; omega
  have hheader : HeaderEmbedder.embed (samples.take hsz) pat (payload.length % 2 ^ 32) =
      .ok (sh.length, sh) := by
    rw [Nat.mod_eq_of_lt hlen32]
    exact headerEmbedder_embed_eq pat payload.length (samples.take hsz)
      (by rw [htake, ← hH]; exact hhs) (by rw [htake, ← hH, ← hsh]; exact hsl)
  have hembp : embed_payload shuffleIdx (samples.drop hsz) pat cfg.bit_index payload =
      some out := by
    rw [embed_payload]
    exact hwrite
  have hembed : LSBEmbedder.embed shuffleIdx autoSeed deriveSeed samples payload cfg =
      .ok (⟨sh.length + payload.length * 8, hsz, patternEmbedsSeed pat⟩, sh ++ out) := by
    simp only [LSBEmbedder.embed, hrc]
    rw [← hhsz]
    rw [if_neg (by omega)]
    simp only [hheader, hembp]
  -- facts about the built header needed by the parser
  have hver : H.fixed.version = VERSION := build_header_version ..
  have hps : H.fixed.payload_size < 2 ^ 32 := by
    rw [hH, build_header_payload_size]; exact hlen32
  have hvalid : H.fixed.crc32 = H.fixed.calculate_crc := build_header_crc_valid ..
  have hprep : ∀ b ∈ H.fixed.prepare_crc_data, b < 256 := by
    intro b hb
    rw [FixedHeader.prepare_crc_data] at hb
    rcases List.mem_cons.mp hb with rfl | hb
    · rw [hver]; norm_num [VERSION]
    · rcases List.mem_cons.mp hb with rfl | hb
      · exact build_header_flags_lt ..
      · exact be32_mem_lt _ b hb
  have hcrclt : H.fixed.crc32 < 2 ^ 32 := by
    rw [hvalid]
    exact crc32_lt _ hprep
  have hshlen : sh.length = hsz := hsl
  have himgfix : FixedHeader.read_from_bytes (sh ++ out) = .ok H.fixed :=
    read_from_bytes_serialize H hver hps hcrclt hvalid out
  have hcomplete : CompleteHeader.read_from_bytes sh = .ok ⟨H.fixed, H.seed⟩ :=
    complete_read_serialize H hver hps hcrclt hvalid (build_header_seed_flag ..) hseedlen
  have himgtake : (sh ++ out).take hsz = sh := List.take_left' hshlen
  have himgdrop : (sh ++ out).drop hsz = out := List.drop_left' hshlen
  have himglen : ¬ (sh ++ out).length < hsz := by
    rw [List.length_append]; omega
  have hmem' : ∀ i ∈ idxs, i < out.length := fun i hi => hlenout ▸ hmem i hi
  have hcount : payload.length * 8 ≤ idxs.length := by
    have h8 := hbits_le
    rw [payloadBits_length] at h8
    omega
  have hread : readBits out cfg.bit_index (payload.length * 8)
      (bodyIndices shuffleIdx pat out.length) =
      some ((idxs.take (payload.length * 8)).map
        (fun i => extract_bit cfg.bit_index (out.getD i 0)), out) := by
    rw [hlenout]
    exact readBits_spec cfg.bit_index (payload.length * 8) idxs out hcount hmem'
  have hBL : (idxs.take (payload.length * 8)).map
      (fun i => extract_bit cfg.bit_index (out.getD i 0)) = payloadBits payload := by
    have hlen1 : ((idxs.take (payload.length * 8)).map
        (fun i => extract_bit cfg.bit_index (out.getD i 0))).length =
        (payloadBits payload).length := by
      rw [List.length_map, List.length_take, payloadBits_length]
      rw [payloadBits_length] at hbits_le
      omega
    apply List.ext_getElem hlen1
    intro k h1 h2
    rw [List.getElem_map, List.getElem_take]
    have hk : k < (payloadBits payload).length := h2
    have hkidx : k < idxs.length := by
      rw [payloadBits_length] at hk
      omega
    have hv := hbitsv k hk
    rw [getD_eq_getElem' hkidx] at hv
    rw [← getD_eq_getElem' hk]
    rw [hv]
    exact and_one_of_lt_two _ (payloadBits_lt_two payload _ (getD_mem hk 0))
  have hextrp : extract_payload shuffleIdx out pat cfg.bit_index H.fixed.payload_size =
      some (payload, out) := by
    rw [hH, build_header_payload_size]
    rw [extract_payload]
    simp only [hread]
    rw [hBL, bitsToBytes_payloadBits payload hpayload]
  have hextract : (LSBEmbedder.extract shuffleIdx deriveSeed (sh ++ out) cfg).1 =
      .ok ⟨payload, hsz, hasFlag H.fixed.flags FLAG_SEED_EMBEDDED⟩ :=
    extract_eq_of shuffleIdx deriveSeed (sh ++ out) cfg H.fixed H.seed pat payload hsz
      himgfix htot himglen (by rw [himgtake]; exact hcomplete) hrecon
      (by rw [himgdrop]; exact hextrp)
  exact ⟨_, _, _, hembed, hextract, rfl⟩



/-- Total header size computed from the built header matches
`required_size` (any bit index). -/
theorem total_size_eq_required (bi : Nat) (pat : RuntimePattern) (size : Nat) :
    (HeaderEmbedder.build_header pat size).fixed.calculate_total_header_size =
      HeaderEmbedder.required_size ⟨bi, pat⟩ := by
  cases pat with
  | linear =>
    simp [HeaderEmbedder.build_header, FixedHeader.calculate_total_header_size,
      HeaderEmbedder.required_size, hasFlag, FLAG_SEED_EMBEDDED]
  | random s es =>
    cases es <;>
      simp [HeaderEmbedder.build_header, FixedHeader.calculate_total_header_size,
        HeaderEmbedder.required_size, hasFlag, FLAG_SEED_EMBEDDED, FLAG_RANDOM_PATTERN]

/-- `CompleteHeader::header_size` of the built header matches
`required_size`. -/
theorem header_size_eq_required (bi : Nat) (pat : RuntimePattern) (size : Nat) :
    (HeaderEmbedder.build_header pat size).header_size =
      HeaderEmbedder.required_size ⟨bi, pat⟩ := by
  cases pat with
  | linear =>
    simp [HeaderEmbedder.build_header, CompleteHeader.header_size,
      HeaderEmbedder.required_size]
  | random s es =>
    cases es <;>
      simp [HeaderEmbedder.build_header, CompleteHeader.header_size,
        HeaderEmbedder.required_size]

/-- Serialized length of the built header matches `required_size`, provided
an embedded seed has 32 bytes. -/
theorem serialize_length_eq_required (bi : Nat) (pat : RuntimePattern) (size : Nat)
    (hseed : ∀ s, (HeaderEmbedder.build_header pat size).seed = some s → s.length = 32) :
    (serializeHeader (HeaderEmbedder.build_header pat size)).length =
      HeaderEmbedder.required_size ⟨bi, pat⟩ := by
  rw [serializeHeader_length]
  cases pat with
  | linear =>
    simp [HeaderEmbedder.build_header, HeaderEmbedder.required_size, FIXED_HEADER_SIZE]
  | random s es =>
    cases es with
    | false =>
      simp [HeaderEmbedder.build_header, HeaderEmbedder.required_size, FIXED_HEADER_SIZE]
    | true =>
      have h32 : s.length = 32 := hseed s rfl
      simp [HeaderEmbedder.build_header, HeaderEmbedder.required_size, h32,
        SEED_SIZE, FIXED_HEADER_SIZE]

/-- Pattern reconstruction round-trips for a linear config. -/
theorem from_header_config_linear (deriveSeed : String → List Nat) (bi size : Nat) :
    RuntimePattern.from_header_and_config deriveSeed
      ⟨(HeaderEmbedder.build_header .linear size).fixed,
       (HeaderEmbedder.build_header .linear size).seed⟩ ⟨bi, .linear⟩ = .ok .linear := by
  simp [RuntimePattern.from_header_and_config, HeaderEmbedder.build_header,
    hasFlag, FLAG_RANDOM_PATTERN]

/-- Pattern reconstruction round-trips for an auto-seed config: the embedded
seed is used. -/
theorem from_header_config_auto (deriveSeed : String → List Nat) (bi size : Nat)
    (s : List Nat) :
    RuntimePattern.from_header_and_config deriveSeed
      ⟨(HeaderEmbedder.build_header (.random s true) size).fixed,
       (HeaderEmbedder.build_header (.random s true) size).seed⟩ ⟨bi, .random .auto⟩ =
      .ok (.random s true) := by
  simp [RuntimePattern.from_header_and_config, RuntimePattern.reconstruct_seed,
    HeaderEmbedder.build_header, hasFlag, FLAG_RANDOM_PATTERN, FLAG_SEED_EMBEDDED]

/-- Pattern reconstruction round-trips for a password config: the seed is
re-derived from the same password. -/
theorem from_header_config_password (deriveSeed : String → List Nat) (bi size : Nat)
    (p : String) :
    RuntimePattern.from_header_and_config deriveSeed
      ⟨(HeaderEmbedder.build_header (.random (deriveSeed p) false) size).fixed,
       (HeaderEmbedder.build_header (.random (deriveSeed p) false) size).seed⟩
      ⟨bi, .random (.password p)⟩ = .ok (.random (deriveSeed p) false) := by
  simp [RuntimePattern.from_header_and_config, RuntimePattern.reconstruct_seed,
    HeaderEmbedder.build_header, hasFlag, FLAG_RANDOM_PATTERN, FLAG_SEED_EMBEDDED]

/-- Pattern reconstruction round-trips for a manual-seed config: the seed is
taken from the configuration. -/
theorem from_header_config_manual (deriveSeed : String → List Nat) (bi size : Nat)
    (s : List Nat) :
    RuntimePattern.from_header_and_config deriveSeed
      ⟨(HeaderEmbedder.build_header (.random s false) size).fixed,
       (HeaderEmbedder.build_header (.random s false) size).seed⟩
      ⟨bi, .random (.manual s)⟩ = .ok (.random s false) := by
  simp [RuntimePattern.from_header_and_config, RuntimePattern.reconstruct_seed,
    HeaderEmbedder.build_header, hasFlag, FLAG_RANDOM_PATTERN, FLAG_SEED_EMBEDDED]



/-- The `u32` truncation of the body indices is the identity for bodies of
at most `2^32` bytes. -/
theorem range_map_mod_eq (n : Nat) (h : n ≤ 2 ^ 32) :
    (List.range n).map (· % 2 ^ 32) = List.range n := by
  have hc : ∀ a ∈ List.range n, a % 2 ^ 32 = id a := by
    intro a ha
    have := List.mem_range.mp ha
    simp only [id_eq]
    omega
  rw [List.map_congr_left hc, List.map_id]

/-- C1 (amended): For every sample buffer of at most `2^32` bytes, payload
and configuration (Linear, or Random with Auto / Password / Manual seed
source, any bit index `0..=7`) with `|payload|·8 + HEADER_BYTES ≤
|samples|`, `LSBEmbedder::embed` succeeds and `LSBEmbedder::extract` on the
resulting buffer with the same configuration succeeds and returns the
original payload.  The index permutation of the rand crate is quantified
over via its documented contract (a permutation of the `u32`-truncated body
range that `BodyEmbedder::new` collects); the CSPRNG seed and the Argon2
derivation are likewise quantified over.  The buffer bound is necessary:
beyond `2^32` body bytes the `i as u32` truncation makes indices collide
and the roundtrip fails. -/
theorem lsb_embed_extract_roundtrip (shuffleIdx : List Nat → Nat → List Nat)
    (autoSeed : List Nat) (deriveSeed : String → List Nat)
    (samples payload : List Nat) (cfg : LSBConfig)
    (hshuffle : ∀ s n, (shuffleIdx s n).Perm ((List.range n).map (· % 2 ^ 32)))
    (hbit : cfg.bit_index < 8)
    (hauto : autoSeed.length = 32)
    (hsamples : ∀ b ∈ samples, b < 256)
    (hpayload : ∀ b ∈ payload, b < 256)
    (hlen32 : payload.length < 2 ^ 32)
    (hfit : samples.length ≤ 2 ^ 32)
    (hcap : payload.length * 8 +
      HeaderEmbedder.required_size (RuntimeConfig.from_config autoSeed deriveSeed cfg) ≤
        samples.length) :
    ∃ res img extres,
      LSBEmbedder.embed shuffleIdx autoSeed deriveSeed samples payload cfg = .ok (res, img) ∧
      (LSBEmbedder.extract shuffleIdx deriveSeed img cfg).1 = .ok extres ∧
      extres.payload = payload := by
  obtain ⟨bi, pattern⟩ := cfg
  dsimp only at hbit hcap
  cases pattern with
  | linear =>
    exact roundtrip_core shuffleIdx autoSeed deriveSeed samples payload ⟨bi, .linear⟩
      .linear rfl hbit hsamples hpayload hlen32
      (by intro s h; simp [HeaderEmbedder.build_header] at h)
      (serialize_length_eq_required bi .linear payload.length
        (by intro s h; simp [HeaderEmbedder.build_header] at h))
      (header_size_eq_required bi .linear payload.length)
      (total_size_eq_required bi .linear payload.length)
      (from_header_config_linear deriveSeed bi payload.length)
      (fun n hn => by
        show ((List.range n).map (· % 2 ^ 32)).Perm (List.range n)
        rw [range_map_mod_eq n (le_trans hn hfit)])
      hcap
  | random src =>
    cases src with
    | auto =>
      refine roundtrip_core shuffleIdx autoSeed deriveSeed samples payload ⟨bi, .random .auto⟩
        (.random autoSeed true) rfl hbit hsamples hpayload hlen32
        ?_ ?_
        (header_size_eq_required bi (.random autoSeed true) payload.length)
        (total_size_eq_required bi (.random autoSeed true) payload.length)
        (from_header_config_auto deriveSeed bi payload.length autoSeed)
        (fun n hn => by
          show (shuffleIdx autoSeed n).Perm (List.range n)
          have hx := hshuffle autoSeed n
          rwa [range_map_mod_eq n (le_trans hn hfit)] at hx)
        hcap
      · intro s h
        rw [build_header_seed] at h
        simp only [Option.some.injEq] at h
        rw [← h]
        exact hauto
      · refine serialize_length_eq_required bi (.random autoSeed true) payload.length ?_
        intro s h
        rw [build_header_seed] at h
        simp only [Option.some.injEq] at h
        rw [← h]
        exact hauto
    | password p =>
      exact roundtrip_core shuffleIdx autoSeed deriveSeed samples payload
        ⟨bi, .random (.password p)⟩ (.random (deriveSeed p) false) rfl hbit
        hsamples hpayload hlen32
        (by intro s h; simp [HeaderEmbedder.build_header] at h)
        (serialize_length_eq_required bi (.random (deriveSeed p) false) payload.length
          (by intro s h; simp [HeaderEmbedder.build_header] at h))
        (header_size_eq_required bi (.random (deriveSeed p) false) payload.length)
        (total_size_eq_required bi (.random (deriveSeed p) false) payload.length)
        (from_header_config_password deriveSeed bi payload.length p)
        (fun n hn => by
          show (shuffleIdx (deriveSeed p) n).Perm (List.range n)
          have hx := hshuffle (deriveSeed p) n
          rwa [range_map_mod_eq n (le_trans hn hfit)] at hx)
        hcap
    | manual s =>
      exact roundtrip_core shuffleIdx autoSeed deriveSeed samples payload
        ⟨bi, .random (.manual s)⟩ (.random s false) rfl hbit
        hsamples hpayload hlen32
        (by intro sd h; simp [HeaderEmbedder.build_header] at h)
        (serialize_length_eq_required bi (.random s false) payload.length
          (by intro sd h; simp [HeaderEmbedder.build_header] at h))
        (header_size_eq_required bi (.random s false) payload.length)
        (total_size_eq_required bi (.random s false) payload.length)
        (from_header_config_manual deriveSeed bi payload.length s)
        (fun n hn => by
          show (shuffleIdx s n).Perm (List.range n)
          have hx := hshuffle s n
          rwa [range_map_mod_eq n (le_trans hn hfit)] at hx)
        hcap



/-- The `u32`-truncated identity index sequence (exactly the vector
`BodyEmbedder::new` collects before any shuffle), used to instantiate the
abstract shuffle in concrete runs. -/
def idxTrunc : List Nat → Nat → List Nat := fun _ n => (List.range n).map (· % 2 ^ 32)

/-- Witness for the roundtrip theorem: a concrete 64-byte zero buffer, the
payload `[1, 2]`, a random pattern with a manual seed, bit index 0, and the
truncated identity permutation as the index sequence. -/
theorem lsb_embed_extract_roundtrip_witness :
    ∃ res img extres,
      LSBEmbedder.embed idxTrunc (List.replicate 32 0)
        (fun _ => List.replicate 32 0) (List.replicate 64 0) [1, 2]
        ⟨0, .random (.manual (List.replicate 32 7))⟩ = .ok (res, img) ∧
      (LSBEmbedder.extract idxTrunc (fun _ => List.replicate 32 0) img
        ⟨0, .random (.manual (List.replicate 32 7))⟩).1 = .ok extres ∧
      extres.payload = [1, 2] :=
  lsb_embed_extract_roundtrip idxTrunc (List.replicate 32 0)
    (fun _ => List.replicate 32 0) (List.replicate 64 0) [1, 2]
    ⟨0, .random (.manual (List.replicate 32 7))⟩
    (fun _ _ => List.Perm.refl _) (by decide) (by decide) (by decide) (by decide)
    (by decide) (by decide) (by decide)



/-! ## C9: extraction never writes to the buffer -/

/-- C9: `LSBEmbedder::extract` hands the sample buffer back unchanged on
every path, success and failure alike: no operation on the extraction path
writes through the mutable borrow. -/
theorem extract_buffer_unchanged (shuffleIdx : List Nat → Nat → List Nat)
    (deriveSeed : String → List Nat) (image : List Nat) (cfg : LSBConfig) :
    (LSBEmbedder.extract shuffleIdx deriveSeed image cfg).2 = image := by
  unfold LSBEmbedder.extract
  dsimp only
  split
  · rfl
  · split
    · rfl
    · split
      · rfl
      · split
        · rfl
        · split
          · rfl
          · next heq =>
            dsimp only
            rw [extract_payload_snd _ _ _ _ _ _ _ heq]
            exact List.take_append_drop _ image

/-! ## C3: no capacity check, oversized payloads panic -/

/-- C3 evidence: a 20-byte buffer cannot hold the 14-byte header plus the
8 carrier bytes of a 1-byte payload; `embed` does not return
`PayloadTooLarge` but panics (the `panic!` in `BodyEmbedder::write_u8`). -/
theorem embed_capacity_violation_panics :
    LSBEmbedder.embed (fun _ n => List.range n) (List.replicate 32 0)
      (fun _ => List.replicate 32 0) (List.replicate 20 0) [0x41] LSBConfig.linear =
      .panicked := by decide

/-! ## Plane preservation of the write loop without side conditions -/

/-- Whenever the write loop succeeds, bit planes other than the target are
untouched everywhere (no distinctness of indices needed). -/
theorem writeBits_plane {p : Nat} (hp : p < 8) :
    ∀ (bits idxs bytes out : List Nat),
      (∀ b ∈ bytes, b < 256) →
      writeBits bytes idxs p bits = some out →
      ∀ j q, q < 8 → q ≠ p → extract_bit q (out.getD j 0) = extract_bit q (bytes.getD j 0) := by
  intro bits
  induction bits with
  | nil =>
    intro idxs bytes out hbnd h
    have : bytes = out := by simpa [writeBits] using h
    subst this
    exact fun _ _ _ _ => rfl
  | cons b bs ih =>
    intro idxs bytes out hbnd h
    cases idxs with
    | nil => simp [writeBits] at h
    | cons i is =>
      by_cases hi : i < bytes.length
      · rw [writeBits_cons_of_lt hi] at h
        have hci : bytes.getD i 0 < 256 := hbnd _ (getD_mem hi 0)
        have hbnd1 : ∀ x ∈ bytes.set i (embed_bit p (bytes.getD i 0) b), x < 256 := by
          intro x hx
          rcases List.mem_or_eq_of_mem_set hx with hx | rfl
          · exact hbnd x hx
          · exact embed_bit_lt hp hci b
        have hpl := ih is _ out hbnd1 h
        intro j q hq hqp
        rw [hpl j q hq hqp]
        by_cases hji : j = i
        · subst hji
          rw [getD_set_self hi, extract_embed_other hp hq hci b hqp]
        · rw [getD_set_ne (fun hh => hji hh.symm)]
      · simp [writeBits, hi] at h

/-! ## Inversion of a successful embed -/

/-- Inversion of a successful `HeaderEmbedder::embed`: the bytes written are
the serialized header followed by the untouched remainder of the region. -/
theorem headerEmbedder_embed_inv (region : List Nat) (pat : RuntimePattern)
    (size n : Nat) (w : List Nat)
    (h : HeaderEmbedder.embed region pat size = .ok (n, w)) :
    n = (serializeHeader (HeaderEmbedder.build_header pat size)).length ∧
    w = serializeHeader (HeaderEmbedder.build_header pat size) ++
      region.drop (serializeHeader (HeaderEmbedder.build_header pat size)).length ∧
    (serializeHeader (HeaderEmbedder.build_header pat size)).length ≤ region.length := by
  unfold HeaderEmbedder.embed at h
  dsimp only at h
  split at h
  · exact absurd h (by simp)
  · split at h
    · exact absurd h (by simp)
    · next h2 =>
      simp only [Except.ok.injEq, Prod.mk.injEq] at h
      exact ⟨h.1.symm, h.2.symm, by omega⟩

/-- Inversion of a successful `LSBEmbedder::embed`: the result fields, the
image as serialized header followed by the written body, and the body write
equation. -/
theorem embed_ok_inv (shuffleIdx : List Nat → Nat → List Nat)
    (autoSeed : List Nat) (deriveSeed : String → List Nat)
    (samples payload : List Nat) (cfg : LSBConfig) (res : EmbedResult) (img : List Nat)
    (h : LSBEmbedder.embed shuffleIdx autoSeed deriveSeed samples payload cfg =
      .ok (res, img)) :
    ∃ out,
      ¬ samples.length <
        HeaderEmbedder.required_size (RuntimeConfig.from_config autoSeed deriveSeed cfg) ∧
      writeBits
        (samples.drop
          (HeaderEmbedder.required_size (RuntimeConfig.from_config autoSeed deriveSeed cfg)))
        (bodyIndices shuffleIdx (RuntimeConfig.from_config autoSeed deriveSeed cfg).pattern
          (samples.drop
            (HeaderEmbedder.required_size
              (RuntimeConfig.from_config autoSeed deriveSeed cfg))).length)
        (RuntimeConfig.from_config autoSeed deriveSeed cfg).bit_index
        (payloadBits payload) = some out ∧
      res.header_size =
        HeaderEmbedder.required_size (RuntimeConfig.from_config autoSeed deriveSeed cfg) ∧
      (serializeHeader
          (HeaderEmbedder.build_header
            (RuntimeConfig.from_config autoSeed deriveSeed cfg).pattern
            (payload.length % 2 ^ 32))).length ≤
        HeaderEmbedder.required_size (RuntimeConfig.from_config autoSeed deriveSeed cfg) ∧
      img =
        (serializeHeader
          (HeaderEmbedder.build_header
            (RuntimeConfig.from_config autoSeed deriveSeed cfg).pattern
            (payload.length % 2 ^ 32)) ++
         (samples.take
            (HeaderEmbedder.required_size (RuntimeConfig.from_config autoSeed deriveSeed cfg))).drop
          (serializeHeader
            (HeaderEmbedder.build_header
              (RuntimeConfig.from_config autoSeed deriveSeed cfg).pattern
              (payload.length % 2 ^ 32))).length) ++ out := by
  unfold LSBEmbedder.embed at h
  dsimp only at h
  split at h
  · exact absurd h (by simp)
  · next h1 =>
    try dsimp only at h
    generalize hhe : HeaderEmbedder.embed
      (samples.take (HeaderEmbedder.required_size (RuntimeConfig.from_config autoSeed deriveSeed cfg)))
      (RuntimeConfig.from_config autoSeed deriveSeed cfg).pattern (payload.length % 2 ^ 32) = he at h
    cases he with
    | error e => exact absurd h (by simp)
    | ok v =>
      obtain ⟨hn, hw⟩ := v
      try dsimp only at h
      generalize hep : embed_payload shuffleIdx
        (samples.drop (HeaderEmbedder.required_size (RuntimeConfig.from_config autoSeed deriveSeed cfg)))
        (RuntimeConfig.from_config autoSeed deriveSeed cfg).pattern
        (RuntimeConfig.from_config autoSeed deriveSeed cfg).bit_index payload = ep at h
      cases ep with
      | none => exact absurd h (by simp)
      | some out =>
        simp only [Outcome.ok.injEq, Prod.mk.injEq] at h
        obtain ⟨hres, himg⟩ := h
        obtain ⟨hinv1, hinv2, hinv3⟩ := headerEmbedder_embed_inv _ _ _ _ _ hhe
        subst hres
        subst himg
        refine ⟨out, h1, ?_, rfl, ?_, ?_⟩
        · unfold embed_payload at hep
          exact hep
        · rw [List.length_take] at hinv3
          omega
        · rw [hinv2]



/-- `getD` on the right part of an append. -/
theorem getD_append_right {l1 l2 : List Nat} {j : Nat} (h : l1.length ≤ j) :
    (l1 ++ l2).getD j 0 = l2.getD (j - l1.length) 0 := by
  simp [List.getD_eq_getElem?_getD, List.getElem?_append_right h]

/-- `getD` through `drop`. -/
theorem getD_drop (l : List Nat) (n k : Nat) :
    (l.drop n).getD k 0 = l.getD (n + k) 0 := by
  simp [List.getD_eq_getElem?_getD, List.getElem?_drop]

/-- C10: a successful embed changes each body-region sample byte (index at
or beyond the header size) at most in the configured bit plane: every other
plane of every body byte is unchanged. -/
theorem embed_preserves_other_planes (shuffleIdx : List Nat → Nat → List Nat)
    (autoSeed : List Nat) (deriveSeed : String → List Nat)
    (samples payload : List Nat) (cfg : LSBConfig) (res : EmbedResult) (img : List Nat)
    (hbit : cfg.bit_index < 8)
    (hsamples : ∀ b ∈ samples, b < 256)
    (hembed : LSBEmbedder.embed shuffleIdx autoSeed deriveSeed samples payload cfg =
      .ok (res, img)) :
    ∀ j, res.header_size ≤ j → ∀ q, q < 8 → q ≠ cfg.bit_index →
      extract_bit q (img.getD j 0) = extract_bit q (samples.getD j 0) := by
  obtain ⟨out, hnl, hwb, hhs, hle, himg⟩ :=
    embed_ok_inv shuffleIdx autoSeed deriveSeed samples payload cfg res img hembed
  intro j hj q hq hqp
  rw [hhs] at hj
  rw [himg]
  have hpfx : (serializeHeader
      (HeaderEmbedder.build_header
        (RuntimeConfig.from_config autoSeed deriveSeed cfg).pattern
        (payload.length % 2 ^ 32)) ++
      (samples.take
        (HeaderEmbedder.required_size (RuntimeConfig.from_config autoSeed deriveSeed cfg))).drop
        (serializeHeader
          (HeaderEmbedder.build_header
            (RuntimeConfig.from_config autoSeed deriveSeed cfg).pattern
            (payload.length % 2 ^ 32))).length).length =
      HeaderEmbedder.required_size (RuntimeConfig.from_config autoSeed deriveSeed cfg) := by
    rw [List.length_append, List.length_drop, List.length_take]
    omega
  rw [getD_append_right (by omega), hpfx]
  have hplane := writeBits_plane hbit (payloadBits payload) _ _ out
    (fun b hb => hsamples b (List.mem_of_mem_drop hb)) hwb
  rw [hplane (j - HeaderEmbedder.required_size
      (RuntimeConfig.from_config autoSeed deriveSeed cfg)) q hq hqp]
  rw [getD_drop, Nat.add_sub_cancel' hj]



/-! ## Concrete instances used by witnesses and counterexamples -/

/-- The identity index sequence (a permutation of the body range), used to
instantiate the abstract shuffle in concrete runs. -/
def idxIdentity : List Nat → Nat → List Nat := fun _ n => List.range n

/-- A concrete all-zero 32-byte seed. -/
def zeroSeed : List Nat := List.replicate 32 0

/-- A concrete seed derivation returning the all-zero seed. -/
def zeroDerive : String → List Nat := fun _ => List.replicate 32 0

/-- A concrete successful linear embed: 30 zero samples, payload `[5]`. -/
def c10Embed : Outcome (EmbedResult × List Nat) :=
  LSBEmbedder.embed idxIdentity zeroSeed zeroDerive (List.replicate 30 0) [5] LSBConfig.linear

/-- Its result record. -/
def c10Res : EmbedResult := match c10Embed with | .ok (r, _) => r | _ => ⟨0, 0, false⟩

/-- Its output buffer. -/
def c10Img : List Nat := match c10Embed with | .ok (_, img) => img | _ => []

/-- Witness for the plane-preservation theorem at a concrete embed: body
byte 20, plane 3 of the output equals plane 3 of the input. -/
theorem embed_preserves_other_planes_witness :
    extract_bit 3 (c10Img.getD 20 0) = extract_bit 3 ((List.replicate 30 0).getD 20 0) :=
  embed_preserves_other_planes idxIdentity zeroSeed zeroDerive (List.replicate 30 0) [5]
    LSBConfig.linear c10Res c10Img (by decide) (by decide) (by decide) 20 (by decide) 3
    (by decide) (by decide)



/-- The concrete scenario of spec §8.1: 200 zero samples, payload
`"hi" = [0x68, 0x69]`, linear pattern, bit index 0. -/
def c4Embed : Outcome (EmbedResult × List Nat) :=
  LSBEmbedder.embed idxIdentity zeroSeed zeroDerive (List.replicate 200 0) [0x68, 0x69]
    LSBConfig.linear

/-- Its result record. -/
def c4Res : EmbedResult := match c4Embed with | .ok (r, _) => r | _ => ⟨0, 0, false⟩

/-- Its output buffer. -/
def c4Img : List Nat := match c4Embed with | .ok (_, img) => img | _ => []

/-- C4 counterexample: in the §8.1 scenario the code reports
`bytes_used = 14 + 2·8 = 30` (raw 14-byte header plus 16 body carrier
bytes), not the claimed `14·8 + 2·8 = 128`. -/
theorem c4_bytes_used_cex : c4Res.bytes_used = 30 ∧ c4Res.bytes_used ≠ 128 := by decide

/-- C4 amended: the §8.1 embed succeeds with `bytes_used = 30`,
`header_size = 14`, `seed_embedded = false`, and extract returns exactly
`[0x68, 0x69]`. -/
theorem c4_amended :
    c4Embed = .ok (⟨30, 14, false⟩, c4Img) ∧
    (LSBEmbedder.extract idxIdentity zeroDerive c4Img LSBConfig.linear).1 =
      .ok ⟨[0x68, 0x69], 14, false⟩ := by decide

/-- C2 counterexample: the header is not stored bit-spread in the
configured bit plane.  In the §8.1 scenario (zero samples, bit index 0) the
claim would force every one of the first `14·8` output bytes to differ from
0 only in bit 0; already output byte 0 is `0x50` (the raw magic byte `P`),
whose bit 4 is set. -/
theorem c2_header_not_bitspread :
    ¬ (∀ j < 14 * 8, ∀ q < 8, q ≠ 0 →
      extract_bit q (c4Img.getD j 0) = extract_bit q ((List.replicate 200 0).getD j 0)) := by
  intro h
  exact absurd (h 0 (by norm_num) 4 (by norm_num) (by norm_num)) (by decide)

/-- C2 amended: the header bytes are stored raw: a successful embed leaves
the serialized header verbatim in the first `header_size` sample bytes
(occupying `HEADER_BYTES` samples, not `HEADER_BYTES × 8`), and extract
parses the header from those raw leading bytes. -/
theorem header_stored_raw (shuffleIdx : List Nat → Nat → List Nat)
    (autoSeed : List Nat) (deriveSeed : String → List Nat)
    (samples payload : List Nat) (cfg : LSBConfig) (res : EmbedResult) (img : List Nat)
    (hlen32 : payload.length < 2 ^ 32)
    (hseedlen : ∀ s, (HeaderEmbedder.build_header
        (RuntimeConfig.from_config autoSeed deriveSeed cfg).pattern payload.length).seed =
        some s → s.length = 32)
    (hembed : LSBEmbedder.embed shuffleIdx autoSeed deriveSeed samples payload cfg =
      .ok (res, img)) :
    img.take res.header_size =
      serializeHeader (HeaderEmbedder.build_header
        (RuntimeConfig.from_config autoSeed deriveSeed cfg).pattern payload.length) ∧
    FixedHeader.read_from_bytes img =
      .ok (HeaderEmbedder.build_header
        (RuntimeConfig.from_config autoSeed deriveSeed cfg).pattern payload.length).fixed := by
  obtain ⟨out, hnl, hwb, hhs, hle, himg⟩ :=
    embed_ok_inv shuffleIdx autoSeed deriveSeed samples payload cfg res img hembed
  rw [Nat.mod_eq_of_lt hlen32] at hle himg
  have hshlen : (serializeHeader (HeaderEmbedder.build_header
      (RuntimeConfig.from_config autoSeed deriveSeed cfg).pattern payload.length)).length =
      HeaderEmbedder.required_size (RuntimeConfig.from_config autoSeed deriveSeed cfg) :=
    serialize_length_eq_required cfg.bit_index _ payload.length hseedlen
  have hdropnil : (samples.take
      (HeaderEmbedder.required_size (RuntimeConfig.from_config autoSeed deriveSeed cfg))).drop
      (serializeHeader (HeaderEmbedder.build_header
        (RuntimeConfig.from_config autoSeed deriveSeed cfg).pattern payload.length)).length =
      [] := by
    apply List.drop_eq_nil_of_le
    rw [List.length_take, hshlen]
    omega
  rw [hdropnil, List.append_nil] at himg
  have hver := build_header_version
    (RuntimeConfig.from_config autoSeed deriveSeed cfg).pattern payload.length
  have hps : (HeaderEmbedder.build_header
      (RuntimeConfig.from_config autoSeed deriveSeed cfg).pattern
      payload.length).fixed.payload_size < 2 ^ 32 := by
    rw [build_header_payload_size]
    exact hlen32
  have hvalid := build_header_crc_valid
    (RuntimeConfig.from_config autoSeed deriveSeed cfg).pattern payload.length
  have hprep : ∀ b ∈ (HeaderEmbedder.build_header
      (RuntimeConfig.from_config autoSeed deriveSeed cfg).pattern
      payload.length).fixed.prepare_crc_data, b < 256 := by
    intro b hb
    rw [FixedHeader.prepare_crc_data] at hb
    rcases List.mem_cons.mp hb with rfl | hb
    · rw [hver]; norm_num [VERSION]
    · rcases List.mem_cons.mp hb with rfl | hb
      · exact build_header_flags_lt ..
      · exact be32_mem_lt _ b hb
  have hcrclt : (HeaderEmbedder.build_header
      (RuntimeConfig.from_config autoSeed deriveSeed cfg).pattern
      payload.length).fixed.crc32 < 2 ^ 32 := by
    rw [hvalid]
    exact crc32_lt _ hprep
  constructor
  · rw [himg, hhs]
    exact List.take_left' hshlen
  · rw [himg]
    exact read_from_bytes_serialize _ hver hps hcrclt hvalid out

/-- Witness for the raw-header theorem at the §8.1 scenario. -/
theorem header_stored_raw_witness :
    c4Img.take c4Res.header_size =
      serializeHeader (HeaderEmbedder.build_header
        (RuntimeConfig.from_config zeroSeed zeroDerive LSBConfig.linear).pattern 2) ∧
    FixedHeader.read_from_bytes c4Img =
      .ok (HeaderEmbedder.build_header
        (RuntimeConfig.from_config zeroSeed zeroDerive LSBConfig.linear).pattern 2).fixed :=
  header_stored_raw idxIdentity zeroSeed zeroDerive (List.replicate 200 0) [0x68, 0x69]
    LSBConfig.linear c4Res c4Img (by decide)
    (by intro s h; simp [HeaderEmbedder.build_header, RuntimeConfig.from_config,
      LSBConfig.linear] at h)
    (by decide)



/-! ## C7: the SEED_EMBEDDED-without-RANDOM_PATTERN check does not exist -/

/-- A well-formed serialized fixed header: magic, version, flags, payload
size, and a CRC matching the six covered bytes. -/
def mkFixedHeaderBytes (v f s : Nat) : List Nat :=
  serializeHeader ⟨⟨v, f, s, Pnger.crc32 (v :: f :: be32 s)⟩, none⟩

/-- C7 counterexample: a header with `SEED_EMBEDDED` set and
`RANDOM_PATTERN` clear (flags = 2) and valid magic, version and CRC is
accepted by header parsing — no `InvalidFormat` rejection exists. -/
theorem seed_without_random_accepted :
    (match FixedHeader.read_from_bytes (mkFixedHeaderBytes 1 2 0) with
      | .ok h => h.flags
      | .error _ => 0) = 2 ∧
    (match FixedHeader.read_from_bytes (mkFixedHeaderBytes 1 2 0) with
      | .ok _ => true
      | .error _ => false) = true ∧
    hasFlag 2 FLAG_SEED_EMBEDDED = true ∧ hasFlag 2 FLAG_RANDOM_PATTERN = false := by
  decide

/-- C7 amended: for every payload size, a well-formed header with flags = 2
(`SEED_EMBEDDED` set, `RANDOM_PATTERN` clear) parses successfully —
`FixedHeader::validate` checks only the CRC — its total header size counts
the 32 seed bytes, and pattern resolution then treats it as Linear. -/
theorem seed_without_random_parses (s : Nat) (hs : s < 2 ^ 32) (tail : List Nat)
    (deriveSeed : String → List Nat) (cfg : LSBConfig) (sd : Option (List Nat)) :
    FixedHeader.read_from_bytes (mkFixedHeaderBytes 1 2 s ++ tail) =
      .ok ⟨1, 2, s, Pnger.crc32 (1 :: 2 :: be32 s)⟩ ∧
    (⟨1, 2, s, Pnger.crc32 (1 :: 2 :: be32 s)⟩ : FixedHeader).calculate_total_header_size =
      46 ∧
    RuntimePattern.from_header_and_config deriveSeed
      ⟨⟨1, 2, s, Pnger.crc32 (1 :: 2 :: be32 s)⟩, sd⟩ cfg = .ok .linear := by
  refine ⟨?_, ?_, ?_⟩
  · exact read_from_bytes_serialize ⟨⟨1, 2, s, Pnger.crc32 (1 :: 2 :: be32 s)⟩, none⟩
      rfl hs (crc32_lt _ (by
        intro b hb
        rcases List.mem_cons.mp hb with rfl | hb
        · norm_num
        · rcases List.mem_cons.mp hb with rfl | hb
          · norm_num
          · exact be32_mem_lt _ b hb)) rfl tail
  · simp [FixedHeader.calculate_total_header_size, hasFlag, FLAG_SEED_EMBEDDED,
      FIXED_HEADER_SIZE, SEED_SIZE]
  · unfold RuntimePattern.from_header_and_config
    rw [show (⟨⟨1, 2, s, Pnger.crc32 (1 :: 2 :: be32 s)⟩,
      sd⟩ : CompleteHeader).fixed.flags = 2 from rfl]
    rw [show hasFlag 2 FLAG_RANDOM_PATTERN = false from by decide]
    simp

/-- Witness for the amended C7 theorem at payload size 0, empty tail. -/
theorem seed_without_random_parses_witness :
    FixedHeader.read_from_bytes (mkFixedHeaderBytes 1 2 0 ++ []) =
      .ok ⟨1, 2, 0, Pnger.crc32 (1 :: 2 :: be32 0)⟩ ∧
    (⟨1, 2, 0, Pnger.crc32 (1 :: 2 :: be32 0)⟩ : FixedHeader).calculate_total_header_size =
      46 ∧
    RuntimePattern.from_header_and_config zeroDerive
      ⟨⟨1, 2, 0, Pnger.crc32 (1 :: 2 :: be32 0)⟩, none⟩ LSBConfig.linear = .ok .linear :=
  seed_without_random_parses 0 (by decide) [] zeroDerive LSBConfig.linear none

/-! ## C8: seed reconstruction for a random-pattern header without seed -/

/-- C8: when the parsed header has `RANDOM_PATTERN` set and `SEED_EMBEDDED`
clear, pattern reconstruction (phase 3 of extract) errors with
`InvalidFormat "Auto seed source but no seed embedded"` for an `Auto`
config, and takes the seed from the configuration for `Password` and
`Manual`. -/
theorem reconstruct_seed_sources (deriveSeed : String → List Nat)
    (fx : FixedHeader) (sd : Option (List Nat)) (bi : Nat)
    (hrand : hasFlag fx.flags FLAG_RANDOM_PATTERN = true)
    (hnoseed : hasFlag fx.flags FLAG_SEED_EMBEDDED = false) :
    (RuntimePattern.from_header_and_config deriveSeed ⟨fx, sd⟩ ⟨bi, .random .auto⟩ =
      .error (.invalidFormat "Auto seed source but no seed embedded")) ∧
    (∀ p, RuntimePattern.from_header_and_config deriveSeed ⟨fx, sd⟩
      ⟨bi, .random (.password p)⟩ = .ok (.random (deriveSeed p) false)) ∧
    (∀ s, RuntimePattern.from_header_and_config deriveSeed ⟨fx, sd⟩
      ⟨bi, .random (.manual s)⟩ = .ok (.random s false)) := by
  unfold RuntimePattern.from_header_and_config RuntimePattern.reconstruct_seed
  rw [hrand, hnoseed]
  simp

/-- Witness for the seed-source resolution theorem at a concrete header
with flags = 1 (random pattern, no embedded seed). -/
theorem reconstruct_seed_sources_witness :
    (RuntimePattern.from_header_and_config zeroDerive ⟨⟨1, 1, 0, 0⟩, none⟩
      ⟨0, .random .auto⟩ =
      .error (.invalidFormat "Auto seed source but no seed embedded")) ∧
    (∀ p, RuntimePattern.from_header_and_config zeroDerive ⟨⟨1, 1, 0, 0⟩, none⟩
      ⟨0, .random (.password p)⟩ = .ok (.random (zeroDerive p) false)) ∧
    (∀ s, RuntimePattern.from_header_and_config zeroDerive ⟨⟨1, 1, 0, 0⟩, none⟩
      ⟨0, .random (.manual s)⟩ = .ok (.random s false)) :=
  reconstruct_seed_sources zeroDerive ⟨1, 1, 0, 0⟩ none 0 (by decide) (by decide)




/-! ## Linearity of the CRC over GF(2) -/

/-- Right shift by one distributes over xor. -/
theorem shiftRight_one_xor (a b : Nat) : (a ^^^ b) >>> 1 = a >>> 1 ^^^ b >>> 1 := by
  rw [Nat.shiftRight_eq_div_pow, Nat.shiftRight_eq_div_pow, Nat.shiftRight_eq_div_pow]
  simpa using Nat.xor_div_two

/-- Rotate a xor out of a left operand. -/
theorem xor_rot (A B P : Nat) : (A ^^^ P) ^^^ B = (A ^^^ B) ^^^ P := by
  rw [Nat.xor_assoc, Nat.xor_comm P B, ← Nat.xor_assoc]

/-- Cancel a xor appearing on both sides. -/
theorem xor_cancel_pair (A B P : Nat) : (A ^^^ P) ^^^ (B ^^^ P) = A ^^^ B := by
  rw [xor_rot A (B ^^^ P) P, Nat.xor_assoc, Nat.xor_cancel_right]

/-- Exchange the middle operands of a double xor. -/
theorem xor_mix (c d x y : Nat) : (c ^^^ d) ^^^ (x ^^^ y) = (c ^^^ x) ^^^ (d ^^^ y) := by
  calc (c ^^^ d) ^^^ (x ^^^ y) = c ^^^ (d ^^^ (x ^^^ y)) := Nat.xor_assoc ..
    _ = c ^^^ ((d ^^^ x) ^^^ y) := by rw [← Nat.xor_assoc d x y]
    _ = c ^^^ ((x ^^^ d) ^^^ y) := by rw [Nat.xor_comm d x]
    _ = c ^^^ (x ^^^ (d ^^^ y)) := by rw [Nat.xor_assoc x d y]
    _ = (c ^^^ x) ^^^ (d ^^^ y) := (Nat.xor_assoc ..).symm

/-- One CRC bit step is linear over xor. -/
theorem crcStep_xor (a b : Nat) : crcStep (a ^^^ b) = crcStep a ^^^ crcStep b := by
  have hab : (a ^^^ b) % 2 = (a + b) % 2 := Nat.xor_mod_two_eq
  unfold crcStep
  simp only [Nat.and_one_is_mod]
  rcases Nat.mod_two_eq_zero_or_one a with h1 | h1 <;>
    rcases Nat.mod_two_eq_zero_or_one b with h2 | h2
  · rw [if_neg (by omega), if_neg (by omega), if_neg (by omega), shiftRight_one_xor]
  · rw [if_pos (by omega), if_neg (by omega), if_pos (by omega), shiftRight_one_xor,
      Nat.xor_assoc]
  · rw [if_pos (by omega), if_pos (by omega), if_neg (by omega), shiftRight_one_xor,
      xor_rot]
  · rw [if_neg (by omega), if_pos (by omega), if_pos (by omega), shiftRight_one_xor,
      xor_cancel_pair]

/-- Iterated CRC bit steps are linear over xor. -/
theorem crcSteps_xor (n : Nat) : ∀ a b, crcSteps n (a ^^^ b) = crcSteps n a ^^^ crcSteps n b := by
  induction n with
  | zero => intro a b; rfl
  | succ n ih =>
    intro a b
    show crcSteps n (crcStep (a ^^^ b)) = crcSteps n (crcStep a) ^^^ crcSteps n (crcStep b)
    rw [crcStep_xor]
    exact ih _ _

/-- Absorbing xored bytes into xored states is linear. -/
theorem crcByte_xor (c d x y : Nat) : crcByte (c ^^^ d) (x ^^^ y) = crcByte c x ^^^ crcByte d y := by
  unfold crcByte
  rw [xor_mix, crcSteps_xor]

/-- The CRC fold is linear: folding the pointwise xor of two equal-length
messages from the xor of two states splits. -/
theorem crcFold_xor : ∀ (m e : List Nat) (c d : Nat), m.length = e.length →
    crcFold (c ^^^ d) (List.zipWith (· ^^^ ·) m e) = crcFold c m ^^^ crcFold d e := by
  intro m
  induction m with
  | nil =>
    intro e c d h
    cases e with
    | nil => rfl
    | cons y ys => simp at h
  | cons x xs ih =>
    intro e c d h
    cases e with
    | nil => simp at h
    | cons y ys =>
      show crcFold (crcByte (c ^^^ d) (x ^^^ y)) (List.zipWith (· ^^^ ·) xs ys) =
        crcFold (crcByte c x) xs ^^^ crcFold (crcByte d y) ys
      rw [crcByte_xor]
      exact ih ys _ _ (by simpa using h)

/-- Flipping bits of a message shifts its CRC-32 by the zero-state fold of
the flip pattern (the init and final-xor constants cancel). -/
theorem crc32_zip_xor (m e : List Nat) (h : m.length = e.length) :
    Pnger.crc32 (List.zipWith (· ^^^ ·) m e) = Pnger.crc32 m ^^^ crcFold 0 e := by
  unfold crc32
  calc crcFold 0xFFFFFFFF (List.zipWith (· ^^^ ·) m e) ^^^ 0xFFFFFFFF
      = crcFold (0xFFFFFFFF ^^^ 0) (List.zipWith (· ^^^ ·) m e) ^^^ 0xFFFFFFFF := by
        rw [Nat.xor_zero]
    _ = (crcFold 0xFFFFFFFF m ^^^ crcFold 0 e) ^^^ 0xFFFFFFFF := by
        rw [crcFold_xor m e _ _ h]
    _ = (crcFold 0xFFFFFFFF m ^^^ 0xFFFFFFFF) ^^^ crcFold 0 e := xor_rot ..

/-- A single-bit flip pattern over the six CRC-covered bytes. -/
def flipVec (i j : Nat) : List Nat :=
  (List.range 6).map fun t => if t = i then 1 <<< j else 0

/-- Bounded check: no single-bit flip of covered bytes 1–5 has a zero CRC
fold, so every such flip changes the CRC. -/
theorem crcFold_flipVec_ne_zero :
    ∀ i < 6, 1 ≤ i → ∀ j < 8, crcFold 0 (flipVec i j) ≠ 0 := by decide



/-! ## C5: single-bit flips in the CRC-covered header bytes -/

/-- Whether a header parse result is a `CrcMismatch` error. -/
def isCrcMismatch : Except HeaderError FixedHeader → Bool
  | .error (.crcMismatch _ _) => true
  | _ => false

/-- Flip bit `j` of byte `bi` of a byte list. -/
def flipBit (l : List Nat) (bi j : Nat) : List Nat :=
  l.set bi (l.getD bi 0 ^^^ 1 <<< j)

/-- Xor of two bytes is a byte. -/
theorem xor_lt_256 (a b : Nat) (ha : a < 256) (hb : b < 256) : a ^^^ b < 256 := by
  have h := Nat.xor_lt_two_pow (show a < 2 ^ 8 by omega) (show b < 2 ^ 8 by omega)
  omega

/-- A single-bit mask is a byte for bit positions below 8. -/
theorem shl_lt_256 : ∀ j < 8, 1 <<< j < 256 := by decide

/-- Flipping a bit of the version byte moves it away from 1. -/
theorem one_flip_ne_one : ∀ j < 8, 1 ^^^ 1 <<< j ≠ 1 := by decide

/-- Four big-endian bytes reassemble below `2^32`. -/
theorem readBE32_lt (l : List Nat) (hb : ∀ b ∈ l, b < 256) : readBE32 l < 2 ^ 32 := by
  unfold readBE32
  have h0 : l.getD 0 0 < 256 := by
    rcases Nat.lt_or_ge 0 l.length with h | h
    · exact hb _ (getD_mem h 0)
    · rw [List.getD_eq_default _ _ (by omega)]; omega
  have h1 : l.getD 1 0 < 256 := by
    rcases Nat.lt_or_ge 1 l.length with h | h
    · exact hb _ (getD_mem h 0)
    · rw [List.getD_eq_default _ _ (by omega)]; omega
  have h2 : l.getD 2 0 < 256 := by
    rcases Nat.lt_or_ge 2 l.length with h | h
    · exact hb _ (getD_mem h 0)
    · rw [List.getD_eq_default _ _ (by omega)]; omega
  have h3 : l.getD 3 0 < 256 := by
    rcases Nat.lt_or_ge 3 l.length with h | h
    · exact hb _ (getD_mem h 0)
    · rw [List.getD_eq_default _ _ (by omega)]; omega
  omega

/-- Changing the CRC fold by a pattern with nonzero zero-state fold changes
the CRC. -/
theorem crc32_flip_ne (m e : List Nat) (h : m.length = e.length)
    (he : crcFold 0 e ≠ 0) :
    Pnger.crc32 m ≠ Pnger.crc32 (List.zipWith (· ^^^ ·) m e) := by
  rw [crc32_zip_xor m e h]
  intro hEq
  apply he
  have h2 : Pnger.crc32 m ^^^ crcFold 0 e = Pnger.crc32 m := hEq.symm
  calc crcFold 0 e = (Pnger.crc32 m ^^^ Pnger.crc32 m) ^^^ crcFold 0 e := by
        rw [Nat.xor_self, Nat.zero_xor]
    _ = Pnger.crc32 m ^^^ (Pnger.crc32 m ^^^ crcFold 0 e) := Nat.xor_assoc ..
    _ = Pnger.crc32 m ^^^ Pnger.crc32 m := by rw [h2]
    _ = 0 := Nat.xor_self _

/-- `FixedHeader::read_from_bytes` on a serialized header whose stored CRC
does not match the covered bytes fails with `CrcMismatch`. -/
theorem read_from_bytes_serialize_bad (h : CompleteHeader)
    (hv : h.fixed.version = VERSION) (hs : h.fixed.payload_size < 2 ^ 32)
    (hcrc : h.fixed.crc32 < 2 ^ 32)
    (hbad : h.fixed.crc32 ≠ h.fixed.calculate_crc) (rest : List Nat) :
    FixedHeader.read_from_bytes (serializeHeader h ++ rest) =
      .error (.crcMismatch h.fixed.calculate_crc h.fixed.crc32) := by
  obtain ⟨⟨v, f, s, c⟩, seedOpt⟩ := h
  dsimp only at hv hs hcrc hbad ⊢
  subst hv
  have hlen : (serializeHeader ⟨⟨VERSION, f, s, c⟩, seedOpt⟩ ++ rest).length ≥ 14 := by
    rw [List.length_append, serializeHeader_length]
    omega
  have hraw : readFixedRaw (serializeHeader ⟨⟨VERSION, f, s, c⟩, seedOpt⟩ ++ rest) =
      .ok ⟨VERSION, f, s, c⟩ := by
    rw [serializeHeader_eq]
    simp only [List.cons_append, List.append_assoc]
    exact readFixedRaw_ok f s c hs hcrc _
  have hval : FixedHeader.validate ⟨VERSION, f, s, c⟩ =
      .error (.crcMismatch (FixedHeader.calculate_crc ⟨VERSION, f, s, c⟩) c) := by
    simp only [FixedHeader.validate]
    rw [if_pos (by simpa using hbad)]
  rw [FixedHeader.read_from_bytes,
    if_neg (by simp only [FIXED_HEADER_SIZE]; omega), hraw]
  dsimp only
  rw [hval]

/-- Parsing magic ‖ 1 ‖ flags ‖ size-bytes ‖ crc-bytes where the CRC does not
cover the middle six bytes reports `CrcMismatch`. -/
theorem crc_reject (f' : Nat) (B : List Nat) (hB4 : B.length = 4)
    (hBlt : ∀ b ∈ B, b < 256) (C : Nat) (hC : C < 2 ^ 32)
    (hbad : C ≠ Pnger.crc32 (1 :: f' :: B)) :
    isCrcMismatch (FixedHeader.read_from_bytes
      (0x50 :: 0x4E :: 0x47 :: 0x52 :: 1 :: f' :: (B ++ be32 C))) = true := by
  have hB : be32 (readBE32 B) = B := be32_readBE32 B hB4 hBlt
  have hs' : readBE32 B < 2 ^ 32 := readBE32_lt B hBlt
  have hcalc : FixedHeader.calculate_crc ⟨1, f', readBE32 B, C⟩ =
      Pnger.crc32 (1 :: f' :: B) := by
    unfold FixedHeader.calculate_crc FixedHeader.prepare_crc_data
    dsimp only
    rw [hB]
  have hbad' : (⟨⟨1, f', readBE32 B, C⟩, none⟩ : CompleteHeader).fixed.crc32 ≠
      (⟨⟨1, f', readBE32 B, C⟩, none⟩ : CompleteHeader).fixed.calculate_crc := by
    dsimp only
    rw [hcalc]
    exact hbad
  have key : (0x50 :: 0x4E :: 0x47 :: 0x52 :: 1 :: f' :: (B ++ be32 C)) =
      serializeHeader ⟨⟨1, f', readBE32 B, C⟩, none⟩ ++ [] := by
    rw [List.append_nil, serializeHeader_eq]
    dsimp only
    rw [hB]
    simp
  rw [key, read_from_bytes_serialize_bad ⟨⟨1, f', readBE32 B, C⟩, none⟩ rfl hs' hC hbad' []]
  rfl

/-- The well-formed serialized header in cons normal form. -/
theorem mkFixedHeaderBytes_eq (v f s : Nat) :
    mkFixedHeaderBytes v f s = 0x50 :: 0x4E :: 0x47 :: 0x52 :: v :: f ::
      (be32 s ++ be32 (Pnger.crc32 (v :: f :: be32 s))) := by
  unfold mkFixedHeaderBytes
  rw [serializeHeader_eq]
  simp

/-- The CRC stored by `mkFixedHeaderBytes` is a `u32` for byte inputs. -/
theorem mkCrc_lt (f s : Nat) (hf : f < 256) : Pnger.crc32 (1 :: f :: be32 s) < 2 ^ 32 := by
  apply crc32_lt
  intro b hb
  rcases List.mem_cons.mp hb with rfl | hb
  · norm_num
  · rcases List.mem_cons.mp hb with rfl | hb
    · exact hf
    · exact be32_mem_lt _ b hb



/-- Flipping any bit of the version byte (byte 4) of a well-formed header
makes parsing fail with `UnsupportedVersion` — the version assert fires
before the CRC is ever compared. -/
theorem c5_version_flip (f s : Nat) (hf : f < 256) (hs : s < 2 ^ 32) (j : Nat)
    (hj : j < 8) :
    FixedHeader.read_from_bytes (flipBit (mkFixedHeaderBytes 1 f s) 4 j) =
      .error (.unsupportedVersion VERSION) := by
  have heq : flipBit (mkFixedHeaderBytes 1 f s) 4 j =
      0x50 :: 0x4E :: 0x47 :: 0x52 :: (1 ^^^ 1 <<< j) :: f ::
        (be32 s ++ be32 (Pnger.crc32 (1 :: f :: be32 s))) := by
    unfold flipBit
    rw [mkFixedHeaderBytes_eq]
    rfl
  have htake : (0x50 :: 0x4E :: 0x47 :: 0x52 :: (1 ^^^ 1 <<< j) :: f ::
      (be32 s ++ be32 (Pnger.crc32 (1 :: f :: be32 s)))).take 4 = MAGIC := rfl
  have hget4 : (0x50 :: 0x4E :: 0x47 :: 0x52 :: (1 ^^^ 1 <<< j) :: f ::
      (be32 s ++ be32 (Pnger.crc32 (1 :: f :: be32 s)))).getD 4 0 = 1 ^^^ 1 <<< j := rfl
  have hraw : readFixedRaw (flipBit (mkFixedHeaderBytes 1 f s) 4 j) =
      .error (.unsupportedVersion VERSION) := by
    rw [heq]
    simp only [readFixedRaw, htake, hget4]
    rw [if_neg (by simp), if_pos (by simpa [VERSION] using one_flip_ne_one j hj)]
  have hlen : ¬ (flipBit (mkFixedHeaderBytes 1 f s) 4 j).length < FIXED_HEADER_SIZE := by
    rw [heq]
    simp [be32, FIXED_HEADER_SIZE]
  rw [FixedHeader.read_from_bytes, if_neg hlen, hraw]

/-- Flipping any bit of the flags byte (byte 5) of a well-formed header
makes parsing fail with `CrcMismatch`. -/
theorem c5_flag_flip (f s : Nat) (hf : f < 256) (hs : s < 2 ^ 32) (j : Nat)
    (hj : j < 8) :
    isCrcMismatch (FixedHeader.read_from_bytes
      (flipBit (mkFixedHeaderBytes 1 f s) 5 j)) = true := by
  have heq : flipBit (mkFixedHeaderBytes 1 f s) 5 j =
      0x50 :: 0x4E :: 0x47 :: 0x52 :: 1 :: (f ^^^ 1 <<< j) ::
        (be32 s ++ be32 (Pnger.crc32 (1 :: f :: be32 s))) := by
    unfold flipBit
    rw [mkFixedHeaderBytes_eq]
    rfl
  have hzip : (1 :: (f ^^^ 1 <<< j) :: be32 s) =
      List.zipWith (· ^^^ ·) (1 :: f :: be32 s) (flipVec 1 j) := by
    rw [show flipVec 1 j = [0, 1 <<< j, 0, 0, 0, 0] from rfl]
    simp [be32]
  have hne : Pnger.crc32 (1 :: f :: be32 s) ≠
      Pnger.crc32 (1 :: (f ^^^ 1 <<< j) :: be32 s) := by
    rw [hzip]
    exact crc32_flip_ne _ _ (by simp [be32, flipVec])
      (crcFold_flipVec_ne_zero 1 (by omega) (by omega) j hj)
  rw [heq]
  exact crc_reject (f ^^^ 1 <<< j) (be32 s) (be32_length s)
    (fun b hb => be32_mem_lt s b hb) (Pnger.crc32 (1 :: f :: be32 s))
    (mkCrc_lt f s hf) hne



/-- Flipping any bit of any payload-size byte (bytes 6–9) of a well-formed
header makes parsing fail with `CrcMismatch`. -/
theorem c5_size_flip (f s : Nat) (hf : f < 256) (hs : s < 2 ^ 32) (bi j : Nat)
    (hbi6 : 6 ≤ bi) (hbi10 : bi < 10) (hj : j < 8) :
    isCrcMismatch (FixedHeader.read_from_bytes
      (flipBit (mkFixedHeaderBytes 1 f s) bi j)) = true := by
  interval_cases bi
  · have heq : flipBit (mkFixedHeaderBytes 1 f s) 6 j =
        0x50 :: 0x4E :: 0x47 :: 0x52 :: 1 :: f ::
          ([s / 2 ^ 24 % 256 ^^^ 1 <<< j, s / 2 ^ 16 % 256, s / 2 ^ 8 % 256, s % 256] ++
            be32 (Pnger.crc32 (1 :: f :: be32 s))) := by
      unfold flipBit
      rw [mkFixedHeaderBytes_eq]
      rfl
    have hzip : (1 :: f ::
        [s / 2 ^ 24 % 256 ^^^ 1 <<< j, s / 2 ^ 16 % 256, s / 2 ^ 8 % 256, s % 256]) =
        List.zipWith (· ^^^ ·) (1 :: f :: be32 s) (flipVec 2 j) := by
      rw [show flipVec 2 j = [0, 0, 1 <<< j, 0, 0, 0] from rfl]
      simp [be32]
    have hne : Pnger.crc32 (1 :: f :: be32 s) ≠ Pnger.crc32 (1 :: f ::
        [s / 2 ^ 24 % 256 ^^^ 1 <<< j, s / 2 ^ 16 % 256, s / 2 ^ 8 % 256, s % 256]) := by
      rw [hzip]
      exact crc32_flip_ne _ _ (by simp [be32, flipVec])
        (crcFold_flipVec_ne_zero 2 (by omega) (by omega) j hj)
    have hBlt : ∀ b ∈
        [s / 2 ^ 24 % 256 ^^^ 1 <<< j, s / 2 ^ 16 % 256, s / 2 ^ 8 % 256, s % 256],
        b < 256 := by
      intro b hb
      simp only [List.mem_cons, List.not_mem_nil, or_false] at hb
      rcases hb with rfl | rfl | rfl | rfl
      · exact xor_lt_256 _ _ (by omega) (shl_lt_256 j hj)
      · omega
      · omega
      · omega
    rw [heq]
    exact crc_reject f _ (by simp) hBlt (Pnger.crc32 (1 :: f :: be32 s)) (mkCrc_lt f s hf) hne
  · have heq : flipBit (mkFixedHeaderBytes 1 f s) 7 j =
        0x50 :: 0x4E :: 0x47 :: 0x52 :: 1 :: f ::
          ([s / 2 ^ 24 % 256, s / 2 ^ 16 % 256 ^^^ 1 <<< j, s / 2 ^ 8 % 256, s % 256] ++
            be32 (Pnger.crc32 (1 :: f :: be32 s))) := by
      unfold flipBit
      rw [mkFixedHeaderBytes_eq]
      rfl
    have hzip : (1 :: f ::
        [s / 2 ^ 24 % 256, s / 2 ^ 16 % 256 ^^^ 1 <<< j, s / 2 ^ 8 % 256, s % 256]) =
        List.zipWith (· ^^^ ·) (1 :: f :: be32 s) (flipVec 3 j) := by
      rw [show flipVec 3 j = [0, 0, 0, 1 <<< j, 0, 0] from rfl]
      simp [be32]
    have hne : Pnger.crc32 (1 :: f :: be32 s) ≠ Pnger.crc32 (1 :: f ::
        [s / 2 ^ 24 % 256, s / 2 ^ 16 % 256 ^^^ 1 <<< j, s / 2 ^ 8 % 256, s % 256]) := by
      rw [hzip]
      exact crc32_flip_ne _ _ (by simp [be32, flipVec])
        (crcFold_flipVec_ne_zero 3 (by omega) (by omega) j hj)
    have hBlt : ∀ b ∈
        [s / 2 ^ 24 % 256, s / 2 ^ 16 % 256 ^^^ 1 <<< j, s / 2 ^ 8 % 256, s % 256],
        b < 256 := by
      intro b hb
      simp only [List.mem_cons, List.not_mem_nil, or_false] at hb
      rcases hb with rfl | rfl | rfl | rfl
      · omega
      · exact xor_lt_256 _ _ (by omega) (shl_lt_256 j hj)
      · omega
      · omega
    rw [heq]
    exact crc_reject f _ (by simp) hBlt (Pnger.crc32 (1 :: f :: be32 s)) (mkCrc_lt f s hf) hne
  · have heq : flipBit (mkFixedHeaderBytes 1 f s) 8 j =
        0x50 :: 0x4E :: 0x47 :: 0x52 :: 1 :: f ::
          ([s / 2 ^ 24 % 256, s / 2 ^ 16 % 256, s / 2 ^ 8 % 256 ^^^ 1 <<< j, s % 256] ++
            be32 (Pnger.crc32 (1 :: f :: be32 s))) := by
      unfold flipBit
      rw [mkFixedHeaderBytes_eq]
      rfl
    have hzip : (1 :: f ::
        [s / 2 ^ 24 % 256, s / 2 ^ 16 % 256, s / 2 ^ 8 % 256 ^^^ 1 <<< j, s % 256]) =
        List.zipWith (· ^^^ ·) (1 :: f :: be32 s) (flipVec 4 j) := by
      rw [show flipVec 4 j = [0, 0, 0, 0, 1 <<< j, 0] from rfl]
      simp [be32]
    have hne : Pnger.crc32 (1 :: f :: be32 s) ≠ Pnger.crc32 (1 :: f ::
        [s / 2 ^ 24 % 256, s / 2 ^ 16 % 256, s / 2 ^ 8 % 256 ^^^ 1 <<< j, s % 256]) := by
      rw [hzip]
      exact crc32_flip_ne _ _ (by simp [be32, flipVec])
        (crcFold_flipVec_ne_zero 4 (by omega) (by omega) j hj)
    have hBlt : ∀ b ∈
        [s / 2 ^ 24 % 256, s / 2 ^ 16 % 256, s / 2 ^ 8 % 256 ^^^ 1 <<< j, s % 256],
        b < 256 := by
      intro b hb
      simp only [List.mem_cons, List.not_mem_nil, or_false] at hb
      rcases hb with rfl | rfl | rfl | rfl
      · omega
      · omega
      · exact xor_lt_256 _ _ (by omega) (shl_lt_256 j hj)
      · omega
    rw [heq]
    exact crc_reject f _ (by simp) hBlt (Pnger.crc32 (1 :: f :: be32 s)) (mkCrc_lt f s hf) hne
  · have heq : flipBit (mkFixedHeaderBytes 1 f s) 9 j =
        0x50 :: 0x4E :: 0x47 :: 0x52 :: 1 :: f ::
          ([s / 2 ^ 24 % 256, s / 2 ^ 16 % 256, s / 2 ^ 8 % 256, s % 256 ^^^ 1 <<< j] ++
            be32 (Pnger.crc32 (1 :: f :: be32 s))) := by
      unfold flipBit
      rw [mkFixedHeaderBytes_eq]
      rfl
    have hzip : (1 :: f ::
        [s / 2 ^ 24 % 256, s / 2 ^ 16 % 256, s / 2 ^ 8 % 256, s % 256 ^^^ 1 <<< j]) =
        List.zipWith (· ^^^ ·) (1 :: f :: be32 s) (flipVec 5 j) := by
      rw [show flipVec 5 j = [0, 0, 0, 0, 0, 1 <<< j] from rfl]
      simp [be32]
    have hne : Pnger.crc32 (1 :: f :: be32 s) ≠ Pnger.crc32 (1 :: f ::
        [s / 2 ^ 24 % 256, s / 2 ^ 16 % 256, s / 2 ^ 8 % 256, s % 256 ^^^ 1 <<< j]) := by
      rw [hzip]
      exact crc32_flip_ne _ _ (by simp [be32, flipVec])
        (crcFold_flipVec_ne_zero 5 (by omega) (by omega) j hj)
    have hBlt : ∀ b ∈
        [s / 2 ^ 24 % 256, s / 2 ^ 16 % 256, s / 2 ^ 8 % 256, s % 256 ^^^ 1 <<< j],
        b < 256 := by
      intro b hb
      simp only [List.mem_cons, List.not_mem_nil, or_false] at hb
      rcases hb with rfl | rfl | rfl | rfl
      · omega
      · omega
      · omega
      · exact xor_lt_256 _ _ (by omega) (shl_lt_256 j hj)
    rw [heq]
    exact crc_reject f _ (by simp) hBlt (Pnger.crc32 (1 :: f :: be32 s)) (mkCrc_lt f s hf) hne

/-- C5 counterexample: flipping bit 0 of the version byte (byte 4, the first
CRC-covered byte) of a well-formed header yields `UnsupportedVersion`, not
`CrcMismatch` — the binrw version assert fires before `validate` runs. -/
theorem c5_version_byte_cex :
    (match FixedHeader.read_from_bytes (flipBit (mkFixedHeaderBytes 1 0 2) 4 0) with
      | .error (.unsupportedVersion v) => some v
      | _ => none) = some 1 ∧
    isCrcMismatch (FixedHeader.read_from_bytes (flipBit (mkFixedHeaderBytes 1 0 2) 4 0)) =
      false := by decide

/-- C5 (amended): for every well-formed header (any flags byte, any payload
size), flipping any single bit of a CRC-covered byte is detected, but not
uniformly as `CrcMismatch`: a flip inside the version byte (byte 4) fails
with `UnsupportedVersion` because the binrw assert precedes validation,
while a flip inside the flags byte or any payload-size byte (bytes 5–9, all
40 bit positions) fails with `CrcMismatch`. -/
theorem header_bitflip_detection (f s : Nat) (hf : f < 256) (hs : s < 2 ^ 32)
    (bi j : Nat) (hbi4 : 4 ≤ bi) (hbi10 : bi < 10) (hj : j < 8) :
    (bi = 4 → FixedHeader.read_from_bytes (flipBit (mkFixedHeaderBytes 1 f s) bi j) =
      .error (.unsupportedVersion VERSION)) ∧
    (5 ≤ bi → isCrcMismatch (FixedHeader.read_from_bytes
      (flipBit (mkFixedHeaderBytes 1 f s) bi j)) = true) := by
  constructor
  · rintro rfl
    exact c5_version_flip f s hf hs j hj
  · intro h5
    rcases Nat.lt_or_ge bi 6 with h6 | h6
    · have hbi : bi = 5 := by omega
      subst hbi
      exact c5_flag_flip f s hf hs j hj
    · exact c5_size_flip f s hf hs bi j h6 hbi10 hj

/-- Witness for the amended C5 theorem: a bit-0 flip of the flags byte of
the header for flags 0, payload size 2 is reported as `CrcMismatch`. -/
theorem header_bitflip_detection_witness :
    isCrcMismatch (FixedHeader.read_from_bytes
      (flipBit (mkFixedHeaderBytes 1 0 2) 5 0)) = true :=
  (header_bitflip_detection 0 2 (by decide) (by decide) 5 0 (by decide) (by decide)
    (by decide)).2 (by decide)



/-! ## C1: failure of the roundtrip beyond the u32 index range -/

/-- The write loop succeeds (and preserves the buffer length) whenever the
index sequence is long enough and in range — no distinctness needed. -/
theorem writeBits_some (p : Nat) :
    ∀ (bits idxs bytes : List Nat),
      bits.length ≤ idxs.length →
      (∀ i ∈ idxs, i < bytes.length) →
      ∃ out, writeBits bytes idxs p bits = some out ∧ out.length = bytes.length := by
  intro bits
  induction bits with
  | nil =>
    intro idxs bytes _ _
    exact ⟨bytes, by simp [writeBits], rfl⟩
  | cons b bs ih =>
    intro idxs bytes hlen hin
    cases idxs with
    | nil => simp at hlen
    | cons i is =>
      have hi : i < bytes.length := hin i (by simp)
      have hlen1 : (bytes.set i (embed_bit p (bytes.getD i 0) b)).length = bytes.length :=
        List.length_set ..
      obtain ⟨out, heq, hlo⟩ := ih is (bytes.set i (embed_bit p (bytes.getD i 0) b))
        (by simpa using hlen) (fun x hx => hlen1 ▸ hin x (by simp [hx]))
      exact ⟨out, by rw [writeBits_cons_of_lt hi]; exact heq, by rw [hlo, hlen1]⟩

/-- Positions outside the consumed index prefix are unchanged by the write
loop — no distinctness needed. -/
theorem writeBits_frame (p : Nat) :
    ∀ (bits idxs bytes out : List Nat),
      writeBits bytes idxs p bits = some out →
      ∀ j, j ∉ idxs.take bits.length → out.getD j 0 = bytes.getD j 0 := by
  intro bits
  induction bits with
  | nil =>
    intro idxs bytes out h j _
    have : bytes = out := by simpa [writeBits] using h
    rw [this]
  | cons b bs ih =>
    intro idxs bytes out h j hj
    cases idxs with
    | nil => simp [writeBits] at h
    | cons i is =>
      by_cases hi : i < bytes.length
      · rw [writeBits_cons_of_lt hi] at h
        rw [List.length_cons, List.take_succ_cons] at hj
        simp only [List.mem_cons, not_or] at hj
        rw [ih is _ out h j hj.2, getD_set_ne (Ne.symm hj.1)]
      · simp [writeBits, hi] at h

/-- `getD` on the left part of an append. -/
theorem getD_append_left {l1 l2 : List Nat} {j : Nat} (h : j < l1.length) :
    (l1 ++ l2).getD j 0 = l1.getD j 0 := by
  simp [List.getD_eq_getElem?_getD, List.getElem?_append_left h]

/-- An element of a take-prefix occurs at some in-prefix position. -/
theorem mem_take_getD {l : List Nat} {m x : Nat} (h : x ∈ l.take m) :
    ∃ r, r < m ∧ l.getD r 0 = x := by
  obtain ⟨k, hk, hkv⟩ := List.getElem_of_mem h
  have hkm : k < m ∧ k < l.length := by
    rw [List.length_take] at hk
    omega
  refine ⟨k, hkm.1, ?_⟩
  rw [getD_eq_getElem' hkm.2, ← hkv, List.getElem_take]

/-- The target plane of a byte holds the bit of the last write to it: if
position `q` of the consumed index prefix names byte `i` and no later
consumed position does, the target plane of byte `i` ends up holding bit
`q` — duplicate indices overwrite earlier writes. -/
theorem writeBits_last_write {p : Nat} (hp : p < 8) :
    ∀ (bits idxs bytes out : List Nat) (q i : Nat),
      writeBits bytes idxs p bits = some out →
      (∀ b ∈ bytes, b < 256) →
      q < bits.length →
      idxs.getD q 0 = i →
      (∀ r, q < r → r < bits.length → idxs.getD r 0 ≠ i) →
      extract_bit p (out.getD i 0) = bits.getD q 0 &&& 1 := by
  intro bits
  induction bits with
  | nil =>
    intro idxs bytes out q i _ _ hq _ _
    exact absurd hq (Nat.not_lt_zero q)
  | cons b bs ih =>
    intro idxs bytes out q i h hbnd hq hqi hlater
    cases idxs with
    | nil => simp [writeBits] at h
    | cons i0 is =>
      by_cases hi0 : i0 < bytes.length
      · rw [writeBits_cons_of_lt hi0] at h
        have hci : bytes.getD i0 0 < 256 := hbnd _ (getD_mem hi0 0)
        have hbnd1 : ∀ x ∈ bytes.set i0 (embed_bit p (bytes.getD i0 0) b), x < 256 := by
          intro x hx
          rcases List.mem_or_eq_of_mem_set hx with hx | rfl
          · exact hbnd x hx
          · exact embed_bit_lt hp hci b
        cases q with
        | zero =>
          have hii0 : i = i0 := by simpa using hqi.symm
          subst hii0
          have hnotin : i ∉ is.take bs.length := by
            intro hmem
            obtain ⟨r, hrm, hrv⟩ := mem_take_getD hmem
            exact hlater (r + 1) (Nat.succ_pos r)
              (by simp only [List.length_cons]; omega)
              (by rw [List.getD_cons_succ]; exact hrv)
          have hout : out.getD i 0 =
              (bytes.set i (embed_bit p (bytes.getD i 0) b)).getD i 0 :=
            writeBits_frame p bs is _ out h i hnotin
          rw [hout, getD_set_self hi0, extract_embed_same hp hci, List.getD_cons_zero]
        | succ q =>
          exact ih is _ out q i h hbnd1 (by simpa using hq)
            (by simpa using hqi)
            (fun r hr hrl => by
              have hx := hlater (r + 1) (Nat.succ_lt_succ hr)
                (by simp only [List.length_cons]; omega)
              simpa using hx)
      · simp [writeBits, hi0] at h

/-- The bit stream of an all-zero payload is all zeros. -/
theorem payloadBits_replicate_zero :
    ∀ m, payloadBits (List.replicate m 0) = List.replicate (8 * m) 0 := by
  intro m
  induction m with
  | zero => rfl
  | succ m ih =>
    have h8 : List.replicate (8 * (m + 1)) (0 : Nat) =
        List.replicate 8 0 ++ List.replicate (8 * m) 0 := by
      rw [← List.replicate_add]
      congr 1
      omega
    rw [List.replicate_succ, payloadBits_cons, ih, h8,
      show byteBits 0 = List.replicate 8 0 from by decide]

/-- Unfolding of the byte reassembly at a successor count. -/
theorem bitsToBytes_succ (n : Nat) (bits : List Nat) :
    bitsToBytes (n + 1) bits =
      byteFromBits (bits.take 8) :: bitsToBytes n (bits.drop 8) := rfl

/-- Entry `q` of the truncated linear index sequence. -/
theorem truncIdx_getD (n q : Nat) (h : q < n) :
    ((List.range n).map (· % 2 ^ 32)).getD q 0 = q % 2 ^ 32 := by
  rw [getD_eq_getElem' (by simpa using h), List.getElem_map, List.getElem_range]

/-- A sample buffer one step past the `u32` index range: `2^32 + 22` zero
bytes, leaving a body of `2^32 + 8` bytes. -/
def wrapSamples : List Nat := List.replicate (2 ^ 32 + 22) 0

/-- A payload of `2^29 + 1` bytes (`2^29` zeros then the byte 1), whose last
eight bits are written to wrapped body indices `0..7`. -/
def wrapPayload : List Nat := List.replicate (2 ^ 29) 0 ++ [1]



/-- Core of the C1 counterexample, stated over abstract buffers carrying
the concrete facts as hypotheses: for a sample buffer of `2^32 + 22` zero
bytes and a payload of `2^29 + 1` bytes whose bit stream is `2^32` zeros
followed by the bits of the byte 1, embed succeeds (the capacity
requirement is met exactly) but the wrapped indices send the final eight
payload bits onto body bytes `0..7`, so the extracted first byte is 1. -/
theorem wrap_roundtrip_fails (samples payload : List Nat)
    (hslen : samples.length = 2 ^ 32 + 22)
    (hzero : ∀ b ∈ samples, b = 0)
    (hplen : payload.length = 2 ^ 29 + 1)
    (hp0 : payload.getD 0 0 = 0)
    (hbits : payloadBits payload = List.replicate (2 ^ 32) 0 ++ byteBits 1) :
    ∃ res img extres,
      LSBEmbedder.embed idxTrunc zeroSeed zeroDerive samples payload ⟨0, .linear⟩ =
        .ok (res, img) ∧
      (LSBEmbedder.extract idxTrunc zeroDerive img ⟨0, .linear⟩).1 = .ok extres ∧
      extres.payload ≠ payload ∧
      payload.length * 8 +
        HeaderEmbedder.required_size
          (RuntimeConfig.from_config zeroSeed zeroDerive ⟨0, .linear⟩) ≤
        samples.length := by
  have hrc : RuntimeConfig.from_config zeroSeed zeroDerive ⟨0, .linear⟩ =
      ⟨0, RuntimePattern.linear⟩ := rfl
  set hsz := HeaderEmbedder.required_size (⟨0, RuntimePattern.linear⟩ : RuntimeConfig)
    with hhsz
  have hsz14 : hsz = 14 := rfl
  have hcap : payload.length * 8 +
      HeaderEmbedder.required_size
        (RuntimeConfig.from_config zeroSeed zeroDerive ⟨0, .linear⟩) ≤
      samples.length := by
    rw [hrc, ← hhsz, hsz14, hplen, hslen]
    omega
  set H := HeaderEmbedder.build_header .linear payload.length with hH
  set sh := serializeHeader H with hsh
  have hseedlen : ∀ s, H.seed = some s → s.length = 32 := by
    intro s h
    rw [hH] at h
    simp [HeaderEmbedder.build_header] at h
  have hsl14 : sh.length = hsz := by
    rw [hsh, hH, hhsz]
    exact serialize_length_eq_required 0 .linear payload.length
      (by intro s h; simp [HeaderEmbedder.build_header] at h)
  have hhs14 : H.header_size = hsz := by
    rw [hH, hhsz]
    exact header_size_eq_required 0 .linear payload.length
  set body := samples.drop hsz with hbody
  have hbodylen : body.length = 2 ^ 32 + 8 := by
    rw [hbody, List.length_drop, hslen]
    omega
  have hbodyb : ∀ b ∈ body, b < 256 := by
    intro b hb
    rw [hbody] at hb
    have hb0 : b = 0 := hzero b (List.mem_of_mem_drop hb)
    omega
  have hbitslen : (payloadBits payload).length = 2 ^ 32 + 8 := by
    rw [hbits, List.length_append, List.length_replicate, byteBits_length]
  -- the truncated index sequence
  have hidxs : bodyIndices idxTrunc .linear body.length =
      (List.range body.length).map (· % 2 ^ 32) := rfl
  have hidxlen : (bodyIndices idxTrunc .linear body.length).length = 2 ^ 32 + 8 := by
    rw [hidxs, List.length_map, List.length_range, hbodylen]
  have hin : ∀ i ∈ bodyIndices idxTrunc .linear body.length, i < body.length := by
    intro i hi
    rw [hidxs] at hi
    obtain ⟨x, hx, rfl⟩ := List.mem_map.mp hi
    have hm := Nat.mod_lt x (show 0 < 2 ^ 32 by norm_num)
    rw [hbodylen]
    omega
  -- body write succeeds
  obtain ⟨out, hwrite, hlenout⟩ := writeBits_some 0 (payloadBits payload)
    (bodyIndices idxTrunc .linear body.length) body
    (by rw [hbitslen, hidxlen]) hin
  have hout_len : out.length = 2 ^ 32 + 8 := by rw [hlenout, hbodylen]
  -- header write succeeds
  have htakelen : (samples.take hsz).length = hsz := by
    rw [List.length_take, hslen, hsz14]
    omega
  have hheader : HeaderEmbedder.embed (samples.take hsz) .linear
      (payload.length % 2 ^ 32) = .ok (sh.length, sh) := by
    rw [show payload.length % 2 ^ 32 = payload.length from
      Nat.mod_eq_of_lt (by rw [hplen]; norm_num)]
    rw [hsh, hH]
    exact headerEmbedder_embed_eq .linear payload.length (samples.take hsz)
      (by rw [htakelen, ← hH]; exact hhs14)
      (by rw [htakelen, ← hH, ← hsh]; exact hsl14)
  have hembp : embed_payload idxTrunc body .linear 0 payload = some out := hwrite
  have hembed : LSBEmbedder.embed idxTrunc zeroSeed zeroDerive samples payload
      ⟨0, .linear⟩ = .ok (⟨sh.length + payload.length * 8, hsz, false⟩, sh ++ out) := by
    simp only [LSBEmbedder.embed, hrc]
    rw [← hhsz]
    rw [if_neg (by rw [hslen, hsz14]; omega)]
    rw [← hbody]
    simp only [hheader, hembp]
    rfl
  -- header parse facts
  have hver : H.fixed.version = VERSION := by rw [hH]; exact build_header_version ..
  have hps : H.fixed.payload_size < 2 ^ 32 := by
    rw [hH, build_header_payload_size, hplen]
    norm_num
  have hpsz : H.fixed.payload_size = payload.length := by
    rw [hH, build_header_payload_size]
  have hvalid : H.fixed.crc32 = H.fixed.calculate_crc := by
    rw [hH]; exact build_header_crc_valid ..
  have hprep : ∀ b ∈ H.fixed.prepare_crc_data, b < 256 := by
    intro b hb
    rw [FixedHeader.prepare_crc_data] at hb
    rcases List.mem_cons.mp hb with rfl | hb
    · rw [hver]; norm_num [VERSION]
    · rcases List.mem_cons.mp hb with rfl | hb
      · rw [hH]; exact build_header_flags_lt ..
      · exact be32_mem_lt _ b hb
  have hcrclt : H.fixed.crc32 < 2 ^ 32 := by
    rw [hvalid]
    exact crc32_lt _ hprep
  have himgfix : FixedHeader.read_from_bytes (sh ++ out) = .ok H.fixed :=
    read_from_bytes_serialize H hver hps hcrclt hvalid out
  have hcomplete : CompleteHeader.read_from_bytes sh = .ok ⟨H.fixed, H.seed⟩ := by
    rw [hsh]
    exact complete_read_serialize H hver hps hcrclt hvalid
      (by rw [hH]; exact build_header_seed_flag ..) hseedlen
  have himgtake : (sh ++ out).take hsz = sh := List.take_left' hsl14
  have himgdrop : (sh ++ out).drop hsz = out := List.drop_left' hsl14
  have himglen : ¬ (sh ++ out).length < hsz := by
    rw [List.length_append, hsl14]
    omega
  have htot : H.fixed.calculate_total_header_size = hsz := by
    rw [hH, hhsz]
    exact total_size_eq_required 0 .linear payload.length
  have hrecon : RuntimePattern.from_header_and_config zeroDerive ⟨H.fixed, H.seed⟩
      ⟨0, .linear⟩ = .ok .linear := by
    rw [hH]
    exact from_header_config_linear zeroDerive 0 payload.length
  -- the extracted payload
  set P := bitsToBytes payload.length
    ((bodyIndices idxTrunc .linear body.length).map
      (fun i => extract_bit 0 (out.getD i 0))) with hP
  have hcount : H.fixed.payload_size * 8 ≤
      (bodyIndices idxTrunc .linear body.length).length := by
    rw [hpsz, hplen, hidxlen]
    omega
  have hmem' : ∀ i ∈ bodyIndices idxTrunc .linear body.length, i < out.length := by
    intro i hi
    rw [hlenout]
    exact hin i hi
  have hreadbits := readBits_spec 0 (H.fixed.payload_size * 8)
    (bodyIndices idxTrunc .linear body.length) out hcount hmem'
  have hextrp : extract_payload idxTrunc out .linear 0 H.fixed.payload_size =
      some (P, out) := by
    show (match readBits out 0 (H.fixed.payload_size * 8)
        (bodyIndices idxTrunc .linear out.length) with
      | some (bits, bytesAfter) => some (bitsToBytes H.fixed.payload_size bits, bytesAfter)
      | none => none) = some (P, out)
    rw [hlenout, hreadbits]
    dsimp only
    rw [List.take_of_length_le (by rw [hidxlen, hpsz, hplen]; omega)]
    rw [hpsz, ← hP]
  have hextract : (LSBEmbedder.extract idxTrunc zeroDerive (sh ++ out) ⟨0, .linear⟩).1 =
      .ok ⟨P, hsz, hasFlag H.fixed.flags FLAG_SEED_EMBEDDED⟩ :=
    extract_eq_of idxTrunc zeroDerive (sh ++ out) ⟨0, .linear⟩ H.fixed H.seed .linear P hsz
      himgfix htot himglen (by rw [himgtake]; exact hcomplete) hrecon
      (by rw [himgdrop]; exact hextrp)
  -- the first extracted byte is 1, not 0
  have hf : ∀ i, i < 8 → extract_bit 0 (out.getD i 0) = (byteBits 1).getD i 0 &&& 1 := by
    intro i hi
    have hq : 2 ^ 32 + i < (payloadBits payload).length := by
      rw [hbitslen]
      omega
    have hqi : (bodyIndices idxTrunc .linear body.length).getD (2 ^ 32 + i) 0 = i := by
      rw [hidxs, truncIdx_getD body.length (2 ^ 32 + i) (by rw [hbodylen]; omega)]
      omega
    have hlater : ∀ r, 2 ^ 32 + i < r → r < (payloadBits payload).length →
        (bodyIndices idxTrunc .linear body.length).getD r 0 ≠ i := by
      intro r hr hrl
      rw [hbitslen] at hrl
      rw [hidxs, truncIdx_getD body.length r (by rw [hbodylen]; omega)]
      omega
    have hlast := writeBits_last_write (show (0:Nat) < 8 by norm_num)
      (payloadBits payload) (bodyIndices idxTrunc .linear body.length) body out
      (2 ^ 32 + i) i hwrite hbodyb hq hqi hlater
    rw [hlast, hbits, getD_append_right (by rw [List.length_replicate]; omega),
      show 2 ^ 32 + i - (List.replicate (2 ^ 32) (0:Nat)).length = i from by
        rw [List.length_replicate]; omega]
  have htake8 : (((bodyIndices idxTrunc .linear body.length)).map
      (fun i => extract_bit 0 (out.getD i 0))).take 8 = [1, 0, 0, 0, 0, 0, 0, 0] := by
    rw [← List.map_take]
    have h1 : (bodyIndices idxTrunc .linear body.length).take 8 = List.range 8 := by
      rw [hidxs, ← List.map_take, List.take_range,
        show min 8 body.length = 8 from by rw [hbodylen]; omega,
        range_map_mod_eq 8 (by norm_num)]
    rw [h1]
    rw [show List.range 8 = [0, 1, 2, 3, 4, 5, 6, 7] from rfl]
    simp only [List.map_cons, List.map_nil]
    rw [hf 0 (by omega), hf 1 (by omega), hf 2 (by omega), hf 3 (by omega),
      hf 4 (by omega), hf 5 (by omega), hf 6 (by omega), hf 7 (by omega)]
    decide
  have hP0 : P.getD 0 0 = 1 := by
    rw [hP, hplen, bitsToBytes_succ, List.getD_cons_zero, htake8]
    decide
  have hPne : P ≠ payload := by
    intro hEq
    rw [hEq, hp0] at hP0
    exact absurd hP0 (by decide)
  exact ⟨_, _, _, hembed, hextract, hPne, hcap⟩

/-- C1 counterexample: the unbounded roundtrip claim fails.  With
`2^32 + 22` zero samples and a `2^29 + 1`-byte payload — the capacity
requirement `|payload|·8 + HEADER_BYTES ≤ |samples|` is met exactly —
linear pattern and bit index 0, embed succeeds, but the `i as u32`
truncation in `BodyEmbedder::new` wraps the body indices: the final eight
payload bits land on body bytes `0..7`, overwriting the bits of the first
payload byte, and extract returns a payload whose first byte is 1 instead
of 0. -/
theorem c1_index_wrap_cex :
    ∃ res img extres,
      LSBEmbedder.embed idxTrunc zeroSeed zeroDerive wrapSamples wrapPayload ⟨0, .linear⟩ =
        .ok (res, img) ∧
      (LSBEmbedder.extract idxTrunc zeroDerive img ⟨0, .linear⟩).1 = .ok extres ∧
      extres.payload ≠ wrapPayload ∧
      wrapPayload.length * 8 +
        HeaderEmbedder.required_size
          (RuntimeConfig.from_config zeroSeed zeroDerive ⟨0, .linear⟩) ≤
        wrapSamples.length := by
  refine wrap_roundtrip_fails wrapSamples wrapPayload ?_ ?_ ?_ ?_ ?_
  · show (List.replicate (2 ^ 32 + 22) (0 : Nat)).length = 2 ^ 32 + 22
    rw [List.length_replicate]
  · intro b hb
    exact List.eq_of_mem_replicate (show b ∈ List.replicate (2 ^ 32 + 22) 0 from hb)
  · show (List.replicate (2 ^ 29) 0 ++ [1]).length = 2 ^ 29 + 1
    rw [List.length_append, List.length_replicate, List.length_cons, List.length_nil]
  · show (List.replicate (2 ^ 29) 0 ++ [1]).getD 0 0 = 0
    rw [getD_append_left (by rw [List.length_replicate]; norm_num),
      getD_eq_getElem' (by rw [List.length_replicate]; norm_num),
      List.getElem_replicate]
  · show payloadBits (List.replicate (2 ^ 29) 0 ++ [1]) =
      List.replicate (2 ^ 32) 0 ++ byteBits 1
    rw [show payloadBits (List.replicate (2 ^ 29) 0 ++ [1]) =
        payloadBits (List.replicate (2 ^ 29) 0) ++ payloadBits [1] from
      List.flatMap_append (List.replicate (2 ^ 29) 0) [1] byteBits]
    rw [payloadBits_replicate_zero,
      show payloadBits [1] = byteBits 1 from by simp [payloadBits],
      show (8 : Nat) * 2 ^ 29 = 2 ^ 32 from by norm_num]

end Pnger
